import Mathlib

/-!
Verification development for the TRON deposit attribution and settlement
engine (database.py, recharge.py, exchange.py): a shallow embedding of the
order ledger, identifier allocator, balance ledger, exchange-rate cache,
block-scan cursor and address/transaction decoding, together with theorems
settling the specification claims.

Modelling conventions:
* SQLite tables become Lean lists of row structures; each SQL statement
  becomes a pure function from table state to table state.
* Monetary amounts (Python floats / SQLite REAL) are modelled as rationals.
* `CURRENT_TIMESTAMP` becomes an explicit `now : Nat` parameter.
* Fallible operations return their Python truth value alongside the new state.
-/

namespace Tkk1bot

/-! ## Balance ledger (database.py: user_balance, balance_logs) -/

/-- Row of the `user_balance` table (columns used by the engine). -/
structure BalanceRow where
  user_id : Nat
  balance : ℚ
  total_earned : ℚ
  total_spent : ℚ
deriving Repr, DecidableEq

/-- Row of the `balance_logs` audit table. -/
structure BalanceLog where
  user_id : Nat
  change_amount : ℚ
  balance_before : ℚ
  balance_after : ℚ
  change_type : String
deriving Repr, DecidableEq

/-- Row of the `recharge_orders` table (columns used by the engine). -/
structure OrderRow where
  order_id : String
  user_id : Nat
  currency : String
  amount : ℚ
  actual_amount : ℚ
  status : String
  wallet_address : String
  tx_hash : Option String
  expired_at : Nat
  completed_at : Option Nat
deriving Repr, DecidableEq

/-- Row of the `amount_identifiers` table.
The schema declares `UNIQUE(identifier, currency)`. -/
structure IdentRow where
  identifier : ℚ
  currency : String
  is_used : Bool
  order_id : Option String
  released_at : Option Nat
deriving Repr, DecidableEq

/-- The persistent store: the three tables the settlement engine touches,
plus the append-only balance audit log and the block-scan records. -/
structure Db where
  orders : List OrderRow
  balances : List BalanceRow
  identifiers : List IdentRow
  balance_logs : List BalanceLog
deriving Repr, DecidableEq

/-- The `SELECT balance FROM user_balance WHERE user_id = ?` (first row). -/
def findBalanceRow (db : Db) (uid : Nat) : Option BalanceRow :=
  db.balances.find? (fun r => r.user_id == uid)

/-- The `Database.get_balance`: returns the stored balance; when no row exists
it inserts `(user_id, 0.0)` and commits, returning `0.0`. -/
def get_balance (db : Db) (uid : Nat) : ℚ × Db :=
  match findBalanceRow db uid with
  | some r => (r.balance, db)
  | none =>
      (0, { db with balances := db.balances ++ [⟨uid, 0, 0, 0⟩] })

/-- The `Database.change_balance`: ensures the row exists via `get_balance`,
rejects a debit that would underflow, otherwise applies the delta
(`admin_set` overwrites), updates the earned/spent totals and appends an
audit log row.  Returns the Python boolean result.
`changeUpd` is the per-row effect of the three `UPDATE user_balance`
statements. -/
def changeUpd (uid : Nat) (amount : ℚ) (change_type : String)
    (r : BalanceRow) : BalanceRow :=
  if r.user_id = uid then
    if change_type = "admin_set" then
      { r with balance := amount }
    else if amount > 0 then
      { r with balance := r.balance + amount,
               total_earned := r.total_earned + amount }
    else
      { r with balance := r.balance + amount,
               total_spent := r.total_spent + |amount| }
  else r

def change_balance (db : Db) (uid : Nat) (amount : ℚ) (change_type : String) :
    Bool × Db :=
  let (balance_before, db) := get_balance db uid
  if amount < 0 ∧ balance_before + amount < 0 then
    (false, db)
  else
    let balance_after :=
      if change_type = "admin_set" then amount else balance_before + amount
    (true,
      { db with
          balances := db.balances.map (changeUpd uid amount change_type),
          balance_logs := db.balance_logs ++
            [⟨uid, amount, balance_before, balance_after, change_type⟩] })

/-! ## Order ledger (database.py: recharge_orders) -/

/-- The `SELECT ... FROM recharge_orders WHERE order_id = ?` (first row). -/
def findOrder (db : Db) (oid : String) : Option OrderRow :=
  db.orders.find? (fun o => o.order_id == oid)

/-- The `Database.update_order_status`: unconditionally sets the status (and
tx_hash / completed_at when a hash is supplied) of every row with the
given order id.  No check of the current status is performed.
`orderStatusUpd` is the per-row effect of the two `UPDATE recharge_orders`
statements. -/
def orderStatusUpd (oid status : String) (tx_hash : Option String)
    (now : Nat) (o : OrderRow) : OrderRow :=
  match tx_hash with
  | some h =>
      if o.order_id = oid then
        { o with status := status, tx_hash := some h,
                 completed_at :=
                   if status = "completed" then some now else o.completed_at }
      else o
  | none =>
      if o.order_id = oid then { o with status := status } else o

def update_order_status (db : Db) (oid : String) (status : String)
    (tx_hash : Option String) (now : Nat) : Bool × Db :=
  (true, { db with
    orders := db.orders.map (orderStatusUpd oid status tx_hash now) })

/-- The `Database.release_identifier`: `UPDATE amount_identifiers SET is_used = 0,
order_id = NULL, released_at = CURRENT_TIMESTAMP WHERE identifier = ? AND
currency = ?`.  Always returns true; the row is kept, never deleted.
`releaseUpd` is the per-row effect of the `UPDATE`. -/
def releaseUpd (ident : ℚ) (cur : String) (now : Nat) (r : IdentRow) :
    IdentRow :=
  if r.identifier = ident ∧ r.currency = cur then
    { r with is_used := false, order_id := none, released_at := some now }
  else r

def release_identifier (db : Db) (ident : ℚ) (cur : String) (now : Nat) :
    Bool × Db :=
  (true, { db with identifiers := db.identifiers.map (releaseUpd ident cur now) })

/-- The `Database.mark_identifier_used`: sets `is_used = 1` and attaches the
order id on every row with the given key.
`markUsedUpd` is the per-row effect of the `UPDATE`. -/
def markUsedUpd (ident : ℚ) (cur : String) (oid : String) (r : IdentRow) :
    IdentRow :=
  if r.identifier = ident ∧ r.currency = cur then
    { r with is_used := true, order_id := some oid }
  else r

def mark_identifier_used (db : Db) (ident : ℚ) (cur : String) (oid : String) :
    Bool × Db :=
  (true, { db with identifiers := db.identifiers.map (markUsedUpd ident cur oid) })

/-! ## Identifier allocator (database.py: allocate_amount_identifier) -/

/-- One key's rows: how many `amount_identifiers` rows carry a given
`(identifier, currency)` pair. -/
def keyCount (tbl : List IdentRow) (ident : ℚ) (cur : String) : Nat :=
  (tbl.filter (fun r => decide (r.identifier = ident ∧ r.currency = cur))).length

/-- The `SELECT id FROM amount_identifiers WHERE identifier = ? AND currency = ?
AND is_used = 0` is non-empty. -/
def hasUnusedRow (tbl : List IdentRow) (ident : ℚ) (cur : String) : Bool :=
  tbl.any (fun r => r.identifier == ident && r.currency == cur && !r.is_used)

/-- Any row at all with the key (determines whether the `INSERT` would hit
the `UNIQUE(identifier, currency)` constraint). -/
def hasAnyRow (tbl : List IdentRow) (ident : ℚ) (cur : String) : Bool :=
  tbl.any (fun r => r.identifier == ident && r.currency == cur)

/-- Loop body of `Database.allocate_amount_identifier` over the stream of
random suffixes.  Each iteration draws one suffix; a suffix already drawn
is skipped (`used_suffixes`); a key with an existing `is_used = 0` row is
treated as taken and retried; otherwise the `INSERT` runs — when a row
with the key already exists (necessarily `is_used = 1`) the `UNIQUE`
constraint raises, the exception handler rolls back and the whole call
returns `None`; when no row exists the insert succeeds and the decorated
amount is returned. -/
def allocateGo (base : ℚ) (cur : String) (tbl : List IdentRow) :
    List Nat → List Nat → Option ℚ × List IdentRow
  | [], _ => (none, tbl)
  | r :: rs, used =>
      if r ∈ used then allocateGo base cur tbl rs used
      else
        let identifier : ℚ := base + (r : ℚ) / 100
        if hasUnusedRow tbl identifier cur then
          allocateGo base cur tbl rs (r :: used)
        else if hasAnyRow tbl identifier cur then
          (none, tbl)
        else
          (some identifier, tbl ++ [⟨identifier, cur, false, none, none⟩])

/-- The `Database.allocate_amount_identifier`: at most 100 loop iterations,
each consuming one entry of the random stream `rand` (each entry is
`random.randint(1, 99)`). -/
def allocate_amount_identifier (rand : List Nat) (base : ℚ) (cur : String)
    (tbl : List IdentRow) : Option ℚ × List IdentRow :=
  allocateGo base cur tbl (rand.take 100) []

/-- The `Database.cancel_order`: looks the order up by id only — no status
check — then sets the status to `cancelled` and releases the identifier.
Returns false only when no row with the id exists. -/
def cancel_order (db : Db) (oid : String) (now : Nat) : Bool × Db :=
  match findOrder db oid with
  | none => (false, db)
  | some o =>
      let db := (update_order_status db oid "cancelled" none now).2
      let db := (release_identifier db o.actual_amount o.currency now).2
      (true, db)

/-- The `Database.complete_recharge_order`: looks the order up by id only — no
status check — then marks it completed with the tx hash, credits the
owner's balance (ignoring the result of `change_balance`, as the source
does) and releases the identifier.  Returns false only when no row with
the id exists. -/
def complete_recharge_order (db : Db) (oid : String) (tx_hash : String)
    (points_awarded : ℚ) (now : Nat) : Bool × Db :=
  match findOrder db oid with
  | none => (false, db)
  | some o =>
      let db := (update_order_status db oid "completed" (some tx_hash) now).2
      let db := (change_balance db o.user_id points_awarded "recharge").2
      let db := (release_identifier db o.actual_amount o.currency now).2
      (true, db)

/-! ## Exchange-rate manager (exchange.py: ExchangeRateManager) -/

/-- Association-list read with a default (Python dict lookup; the keys the
code reads are always present). -/
def alistGet (l : List (String × ℚ)) (k : String) : ℚ :=
  match l.find? (fun p => p.1 == k) with
  | some p => p.2
  | none => 0

/-- Association-list write (`d[k] = v`). -/
def alistSet (l : List (String × ℚ)) (k : String) (v : ℚ) : List (String × ℚ) :=
  if l.any (fun p => p.1 == k) then
    l.map (fun p => if p.1 = k then (k, v) else p)
  else l ++ [(k, v)]

/-- Nat-valued association list for the cache-expiry timestamps. -/
def alistSetN (l : List (String × Nat)) (k : String) (v : Nat) :
    List (String × Nat) :=
  if l.any (fun p => p.1 == k) then
    l.map (fun p => if p.1 = k then (k, v) else p)
  else l ++ [(k, v)]

/-- In-memory state of `ExchangeRateManager`. -/
structure ExchangeState where
  rate_cache : List (String × ℚ)
  cache_expire_time : List (String × Nat)
  fixed_rates : List (String × ℚ)
  use_api : Bool
deriving Repr, DecidableEq

/-- The `cache_duration = 300` seconds. -/
def cache_duration : Nat := 300

/-- The `ExchangeRateManager.__init__`'s fixed-rate table. -/
def initialFixedRates : List (String × ℚ) :=
  [("USDT_CNY", 72/10), ("TRX_CNY", 3/4), ("USDT_POINTS", 72/10),
   ("TRX_POINTS", 3/4)]

/-- The `ExchangeRateManager.set_fixed_rate`: writes `{currency}_CNY` and
`{currency}_POINTS` in `fixed_rates`; it touches neither `rate_cache` nor
`cache_expire_time`. -/
def set_fixed_rate (st : ExchangeState) (currency : String) (rate : ℚ) :
    ExchangeState :=
  let fr := alistSet st.fixed_rates (currency ++ "_CNY") rate
  { st with fixed_rates := alistSet fr (currency ++ "_POINTS") rate }

/-- The `ExchangeRateManager._is_cache_valid`. -/
def is_cache_valid (st : ExchangeState) (key : String) (now : Nat) : Bool :=
  match st.cache_expire_time.find? (fun p => p.1 == key) with
  | none => false
  | some p => now < p.2

/-- The `ExchangeRateManager._set_cache`. -/
def set_cache (st : ExchangeState) (key : String) (v : ℚ) (now : Nat) :
    ExchangeState :=
  { st with rate_cache := alistSet st.rate_cache key v,
            cache_expire_time :=
              alistSetN st.cache_expire_time key (now + cache_duration) }

/-- The `ExchangeRateManager.clear_cache`. -/
def clear_cache (st : ExchangeState) : ExchangeState :=
  { st with rate_cache := [], cache_expire_time := [] }

/-- The `ExchangeRateManager.get_usdt_rate`: cached value while valid; fixed
rate when the API is disabled; otherwise the fixed rate is cached and
returned (the source has no live USDT/CNY feed). -/
def get_usdt_rate (st : ExchangeState) (now : Nat) : ℚ × ExchangeState :=
  if is_cache_valid st "USDT_POINTS" now then
    (alistGet st.rate_cache "USDT_POINTS", st)
  else if !st.use_api then
    (alistGet st.fixed_rates "USDT_POINTS", st)
  else
    let rate := alistGet st.fixed_rates "USDT_POINTS"
    (rate, set_cache st "USDT_POINTS" rate now)

/-- The `ExchangeRateManager.get_trx_rate`: cached value while valid; fixed
rate when the API is disabled; otherwise the Binance TRX/USDT price
(`fetch`, `None` on failure, and `0` is falsy) is multiplied by the USDT
rate and cached; on fetch failure the fixed rate is cached and returned. -/
def get_trx_rate (fetch : Option ℚ) (st : ExchangeState) (now : Nat) :
    ℚ × ExchangeState :=
  if is_cache_valid st "TRX_POINTS" now then
    (alistGet st.rate_cache "TRX_POINTS", st)
  else if !st.use_api then
    (alistGet st.fixed_rates "TRX_POINTS", st)
  else
    match fetch with
    | some trx_usdt =>
        if trx_usdt ≠ 0 then
          let (usdt_rate, st) := get_usdt_rate st now
          let rate := trx_usdt * usdt_rate
          (rate, set_cache st "TRX_POINTS" rate now)
        else
          let rate := alistGet st.fixed_rates "TRX_POINTS"
          (rate, set_cache st "TRX_POINTS" rate now)
    | none =>
        let rate := alistGet st.fixed_rates "TRX_POINTS"
        (rate, set_cache st "TRX_POINTS" rate now)

/-! ## Block-scan cursor (recharge.py: TronBlockScanner, database.py:
save_block_scan / get_last_scanned_block)

For the cursor claims the per-transaction settlement work is irrelevant;
a block body is abstracted to its transaction list (`List Unit`), and a
ghost `processed` log records every block whose body was fetched and
examined.  `fetch b = none` models a failed block fetch or a body without
a `transactions` key. -/

/-- Scanner-visible state: the `block_scan_records` rows for one currency
(`save_block_scan` inserts one row per block; `get_last_scanned_block`
reads the maximum) plus the ghost processing log. -/
structure ScanState where
  saved : List Nat
  processed : List Nat
deriving Repr, DecidableEq

/-- The `Database.get_last_scanned_block`: `SELECT block_number ... ORDER BY
block_number DESC LIMIT 1`. -/
def get_last_scanned_block (s : ScanState) : Option Nat :=
  match s.saved with
  | [] => none
  | b :: bs => some (bs.foldl max b)

/-- The `TronBlockScanner.scan_block`: fetch the block; a missing body returns
early; an empty transaction list returns early *before* the
`save_block_scan` call; otherwise every transaction is processed and the
block number is saved. -/
def scan_block (fetch : Nat → Option (List Unit)) (b : Nat) (s : ScanState) :
    ScanState :=
  match fetch b with
  | none => s
  | some txs =>
      let s := { s with processed := s.processed ++ [b] }
      if txs.isEmpty then s
      else { s with saved := s.saved ++ [b] }

/-- The resume point computed by one iteration of
`TronBlockScanner.start_scanning`: `last_scanned = get_last_scanned_block`,
and `if not last_scanned: last_scanned = latest_block - 1` (Python falsy:
both `None` and `0` trigger the first-run initialisation). -/
def resumePoint (s : ScanState) (tip : Nat) : Nat :=
  match get_last_scanned_block s with
  | none => tip - 1
  | some l => if l = 0 then tip - 1 else l

/-- One iteration of the `start_scanning` loop with tip height `tip`:
scan blocks `last+1 .. tip` in order.  (The subsequent
`expire_old_orders` call does not touch the scan state.) -/
def scanCycle (fetch : Nat → Option (List Unit)) (tip : Nat) (s : ScanState) :
    ScanState :=
  let last := resumePoint s tip
  ((List.range' (last + 1) (tip - last)).foldl
    (fun s b => scan_block fetch b s) s)

/-- A run of the scanner: a sequence of cycles, each with its own block
oracle (block data and tip may change between cycles). -/
def scanRun (cycles : List ((Nat → Option (List Unit)) × Nat)) (s : ScanState) :
    ScanState :=
  cycles.foldl (fun s c => scanCycle c.1 c.2 s) s

/-! ## Concrete data for claim C1 -/

/-- A store holding a single already-completed order for user 7 whose
balance is 50. -/
def dbC1 : Db :=
  { orders := [{ order_id := "RO1", user_id := 7, currency := "TRX",
                 amount := 100, actual_amount := 10037/100,
                 status := "completed", wallet_address := "W",
                 tx_hash := some "tx1", expired_at := 1000,
                 completed_at := some 10 }],
    balances := [⟨7, 50, 50, 0⟩],
    identifiers := [],
    balance_logs := [] }

/-! ## Concrete data for claim C5 -/

/-- A store holding a single already-completed order, used to exercise
`cancel_order` on a terminal order. -/
def dbC5 : Db :=
  { orders := [{ order_id := "RO2", user_id := 9, currency := "USDT",
                 amount := 50, actual_amount := 5012/100,
                 status := "completed", wallet_address := "W",
                 tx_hash := some "tx9", expired_at := 1000,
                 completed_at := some 10 }],
    balances := [],
    identifiers := [⟨5012/100, "USDT", true, some "RO2", none⟩],
    balance_logs := [] }

/-! ## Concrete data for claim C2 -/

/-- The operations that touch the `amount_identifiers` table: allocation
(with its stream of random suffixes), binding to an order, and release. -/
inductive IdentOp where
  | alloc (rand : List Nat) (base : ℚ) (cur : String)
  | markUsed (ident : ℚ) (cur : String) (oid : String)
  | release (ident : ℚ) (cur : String) (now : Nat)

/-- Effect of one operation on the `amount_identifiers` table, routed
through the corresponding `Database` method. -/
def applyIdentOp (tbl : List IdentRow) : IdentOp → List IdentRow
  | .alloc rand base cur => (allocate_amount_identifier rand base cur tbl).2
  | .markUsed i c oid => (mark_identifier_used ⟨[], [], tbl, []⟩ i c oid).2.identifiers
  | .release i c now => (release_identifier ⟨[], [], tbl, []⟩ i c now).2.identifiers

/-! ## Concrete data for claim C4 -/

/-- A table holding one released identifier record for 100.37 TRX
(`is_used = 0`, order detached, `released_at` set). -/
def tblC4 : List IdentRow := [⟨10037/100, "TRX", false, none, some 5⟩]

/-! ## Concrete data for claim C9 -/

/-- Cache state with a live TRX cache entry (rate 5, expiring at 100)
and the default fixed rates, API enabled. -/
def stC9 : ExchangeState :=
  { rate_cache := [("TRX_POINTS", 5)],
    cache_expire_time := [("TRX_POINTS", 100)],
    fixed_rates := initialFixedRates,
    use_api := true }

/-- The `stC9` with the API disabled. -/
def stC9off : ExchangeState := { stC9 with use_api := false }

/-! ## Cursor as a number -/

/-- The cursor as a number: maximum saved block (0 when nothing saved). -/
def cursorVal (s : ScanState) : Nat := s.saved.foldr max 0

/-! ## Concrete data for claim C3 -/

/-- Block oracle for the counterexample: block 6 carries one transaction,
every other block is fetched successfully but empty. -/
def fC3 : Nat → Option (List Unit) :=
  fun n => if n = 6 then some [()] else some []

/-! ## SHA-256 (hashlib.sha256, the checksum hash of base58check)

`recharge.py` feeds the address bytes to `hashlib.sha256` twice and keeps
the first four bytes as the base58check checksum; `base58.b58encode_check`
does the same.  FIPS 180-4 SHA-256 over byte lists, on `Nat` words
reduced mod `2^32`. -/

/-- Truncate to a 32-bit word. -/
def w32 (n : Nat) : Nat := n % 4294967296

/-- 32-bit right rotation. -/
def rotr32 (n x : Nat) : Nat := w32 ((x >>> n) ||| (x <<< (32 - n)))

/-- SHA-256 round constants. -/
def sha256K : List Nat :=
  [1116352408, 1899447441, 3049323471, 3921009573, 961987163,
   1508970993, 2453635748, 2870763221, 3624381080, 310598401,
   607225278, 1426881987, 1925078388, 2162078206, 2614888103,
   3248222580, 3835390401, 4022224774, 264347078, 604807628,
   770255983, 1249150122, 1555081692, 1996064986, 2554220882,
   2821834349, 2952996808, 3210313671, 3336571891, 3584528711,
   113926993, 338241895, 666307205, 773529912, 1294757372,
   1396182291, 1695183700, 1986661051, 2177026350, 2456956037,
   2730485921, 2820302411, 3259730800, 3345764771, 3516065817,
   3600352804, 4094571909, 275423344, 430227734, 506948616,
   659060556, 883997877, 958139571, 1322822218, 1537002063,
   1747873779, 1955562222, 2024104815, 2227730452, 2361852424,
   2428436474, 2756734187, 3204031479, 3329325298]

/-- SHA-256 initial hash value. -/
def sha256H0 : List Nat :=
  [1779033703, 3144134277, 1013904242,
   2773480762, 1359893119, 2600822924,
   528734635, 1541459225]

/-- Big-endian 4-byte groups to 32-bit words. -/
def bytesToWords : List Nat → List Nat
  | b0 :: b1 :: b2 :: b3 :: rest =>
      (b0 * 16777216 + b1 * 65536 + b2 * 256 + b3) :: bytesToWords rest
  | _ => []

/-- Extend the message schedule by one word. -/
def sha256ExtendOnce (w : List Nat) : List Nat :=
  let i := w.length
  let x15 := w.getD (i - 15) 0
  let x2 := w.getD (i - 2) 0
  let s0 := rotr32 7 x15 ^^^ rotr32 18 x15 ^^^ (x15 >>> 3)
  let s1 := rotr32 17 x2 ^^^ rotr32 19 x2 ^^^ (x2 >>> 10)
  w ++ [w32 (w.getD (i - 16) 0 + s0 + w.getD (i - 7) 0 + s1)]

/-- One compression round on the state `[a,b,c,d,e,f,g,h]`. -/
def sha256Round (st : List Nat) (kw : Nat × Nat) : List Nat :=
  let a := st.getD 0 0
  let b := st.getD 1 0
  let c := st.getD 2 0
  let d := st.getD 3 0
  let e := st.getD 4 0
  let f := st.getD 5 0
  let g := st.getD 6 0
  let h := st.getD 7 0
  let s1 := rotr32 6 e ^^^ rotr32 11 e ^^^ rotr32 25 e
  let ch := (e &&& f) ^^^ ((e ^^^ 4294967295) &&& g)
  let temp1 := w32 (h + s1 + ch + kw.1 + kw.2)
  let s0 := rotr32 2 a ^^^ rotr32 13 a ^^^ rotr32 22 a
  let maj := (a &&& b) ^^^ (a &&& c) ^^^ (b &&& c)
  let temp2 := w32 (s0 + maj)
  [w32 (temp1 + temp2), a, b, c, w32 (d + temp1), e, f, g]

/-- Compress one 64-byte chunk into the running hash. -/
def sha256Compress (h : List Nat) (chunk : List Nat) : List Nat :=
  let w := sha256ExtendOnce^[48] (bytesToWords chunk)
  let st := (sha256K.zip w).foldl sha256Round h
  (h.zip st).map (fun p => w32 (p.1 + p.2))

/-- Process `n` chunks of 64 bytes. -/
def sha256Chunks : Nat → List Nat → List Nat → List Nat
  | 0, _, h => h
  | n + 1, l, h => sha256Chunks n (l.drop 64) (sha256Compress h (l.take 64))

/-- SHA-256 padding: `0x80`, zeros to 56 mod 64, 8-byte big-endian bit
length. -/
def sha256Pad (msg : List Nat) : List Nat :=
  let len := msg.length
  let k := (119 - len % 64) % 64
  let bitlen := 8 * len
  msg ++ [128] ++ List.replicate k 0 ++
    [w32 (bitlen >>> 56) % 256, (bitlen >>> 48) % 256, (bitlen >>> 40) % 256,
     (bitlen >>> 32) % 256, (bitlen >>> 24) % 256, (bitlen >>> 16) % 256,
     (bitlen >>> 8) % 256, bitlen % 256]

/-- Serialise eight 32-bit words to 32 big-endian bytes. -/
def wordsToBytes (w : List Nat) : List Nat :=
  w.flatMap (fun x =>
    [(x >>> 24) % 256, (x >>> 16) % 256, (x >>> 8) % 256, x % 256])

/-- SHA-256 digest of a byte list. -/
def sha256 (msg : List Nat) : List Nat :=
  let padded := sha256Pad msg
  wordsToBytes (sha256Chunks (padded.length / 64) padded sha256H0)

/-- First four bytes of the double SHA-256: the base58check checksum. -/
def checksum4 (bs : List Nat) : List Nat := (sha256 (sha256 bs)).take 4

/-! ## Base58check and hex codec (recharge.py: _hex_to_address,
_hex_to_base58_builtin) -/

/-- The base58 alphabet of `_hex_to_base58_builtin` (and of the `base58`
library). -/
def b58Alphabet : List Char :=
  "123456789ABCDEFGHJKLMNPQRSTUVWXYZabcdefghijkmnopqrstuvwxyz".toList

/-- The `BASE58_ALPHABET[d]`. -/
def b58char (d : Nat) : Char := b58Alphabet.getD d ' '

/-- Inverse digit lookup (used only by the verification-side decoder). -/
def b58digit (c : Char) : Nat := b58Alphabet.indexOf c

/-- Big-endian byte-list value (`int.from_bytes(bytes, 'big')`). -/
def beBytesToNat (l : List Nat) : Nat := l.foldl (fun a b => 256 * a + b) 0

/-- Base58check rendering of a byte list: count of leading zero bytes as
`'1'`s, then the big-endian base58 digits of the value of bytes plus
checksum — exactly the `while num > 0` loop plus the leading-zero loop of
`_hex_to_base58_builtin`. -/
def b58Render (abc : List Nat) : List Char :=
  List.replicate ((abc.takeWhile (fun b => b == 0)).length) '1' ++
    ((Nat.digits 58 (beBytesToNat abc)).reverse.map b58char)

/-- The `b58encode_check` / `_hex_to_base58_builtin` applied to address
bytes: append the double-SHA-256 checksum and render in base58. -/
def b58encode_check (bs : List Nat) : List Char :=
  b58Render (bs ++ checksum4 bs)

/-- Verification-side base58 decoder: leading `'1'`s back to zero bytes,
remaining digits back to a big-endian byte string.  `Modelled from the
spec`: the repository has no decoder; §8 "Address round-trip" re-derives
the raw payload from the checksummed address. -/
def b58decodeBytes (s : List Char) : List Nat :=
  let z := (s.takeWhile (fun c => c == '1')).length
  let ds := (s.dropWhile (fun c => c == '1')).map b58digit
  List.replicate z 0 ++ (Nat.digits 256 (Nat.ofDigits 58 ds.reverse)).reverse

/-- Hex digit value (both cases), `none` for a non-hex character. -/
def hexDigit? (c : Char) : Option Nat :=
  if 48 ≤ c.toNat ∧ c.toNat ≤ 57 then some (c.toNat - 48)
  else if 97 ≤ c.toNat ∧ c.toNat ≤ 102 then some (c.toNat - 87)
  else if 65 ≤ c.toNat ∧ c.toNat ≤ 70 then some (c.toNat - 55)
  else none

/-- The `binascii.unhexlify`: hex-character pairs to bytes; fails on odd
length or a non-hex character. -/
def unhex : List Char → Option (List Nat)
  | [] => some []
  | _ :: [] => none
  | c1 :: c2 :: rest =>
      match hexDigit? c1, hexDigit? c2, unhex rest with
      | some hi, some lo, some bs => some ((16 * hi + lo) :: bs)
      | _, _, _ => none

/-- Lowercase rendering of a byte list as hex characters. -/
def hexChar (d : Nat) : Char := "0123456789abcdef".toList.getD d '0'

/-- Byte list to lowercase hex characters. -/
def bytesToHex (bs : List Nat) : List Char :=
  bs.flatMap (fun b => [hexChar (b / 16), hexChar (b % 16)])

/-- The `TronBlockScanner._hex_to_address`: strip a `0x` transport prefix,
prepend the `41` network prefix unless the string already starts with
`41`, unhexlify and base58check-encode; on an unhexlify failure the
(already modified) hex string itself is returned. -/
def hex_to_address (s : List Char) : List Char :=
  let s1 := if (['0', 'x'].isPrefixOf s : Bool) then s.drop 2 else s
  let s2 := if ¬ (['4', '1'].isPrefixOf s1 : Bool) then '4' :: '1' :: s1
            else s1
  match unhex s2 with
  | some bytes => b58encode_check bytes
  | none => s2

/-- Verification-side re-derivation of the raw payload from a checksummed
address: base58-decode, drop the 4 checksum bytes, drop the network
prefix byte.  `Modelled from the spec`: §8 "Address round-trip". -/
def rederiveRaw (s : List Char) : List Nat :=
  let bytes := b58decodeBytes s
  (bytes.take (bytes.length - 4)).drop 1

/-! ## USDT transfer decoding (recharge.py: _process_usdt_transaction) -/

/-- Configuration consumed by the decoder. -/
structure TronConfig where
  usdt_contract : List Char
  wallet_address : List Char

/-- One entry of a transaction's `raw_data.contract` array. -/
structure TronContract where
  ctype : String
  contract_address : List Char
  owner_address : List Char
  data : List Char

/-- The `TronBlockScanner._parse_usdt_value`: `int(hex, 16) / 1_000_000`,
with the exception handler returning 0.  (`int(x, 16)` also tolerates
surrounding whitespace, a sign and a `0x` prefix; the fixed-offset slices
decoded here are plain hex digits, modelled as: all characters must be
hex digits.) -/
def hexToNat? (s : List Char) : Option Nat :=
  if s.isEmpty then none
  else s.foldl (fun acc c =>
    acc.bind (fun a => (hexDigit? c).map (fun d => 16 * a + d))) (some 0)

def parse_usdt_value (s : List Char) : ℚ :=
  match hexToNat? s with
  | some v => (v : ℚ) / 1000000
  | none => 0

/-- Python's `round(q, 2)` (banker's rounding at two decimals), on ℚ. -/
def py_round2 (q : ℚ) : ℚ :=
  let x := q * 100
  let f := Int.floor x
  let r := x - f
  let n : ℤ := if r < 1/2 then f
               else if 1/2 < r then f + 1
               else if f % 2 = 0 then f else f + 1
  (n : ℚ) / 100

/-- One `raw_data.contract` entry of `_process_usdt_transaction`:
`some amount` exactly when the code reaches the
`find_order_by_amount(amount, 'USDT')` call, `none` when the entry is
skipped.  The method signature `data[0:8]` is extracted by the source but
never compared against the `transfer` selector; only the contract
address, the 136-character minimum length and the destination address
field gate the lookup. -/
def process_usdt_contract (cfg : TronConfig) (c : TronContract) : Option ℚ :=
  if c.ctype ≠ "TriggerSmartContract" then none
  else if hex_to_address c.contract_address ≠ cfg.usdt_contract then none
  else if c.data.length < 136 then none
  else
    let to_address_hex := (c.data.drop 32).take 40
    let amount_hex := (c.data.drop 72).take 64
    if hex_to_address to_address_hex ≠ cfg.wallet_address then none
    else some (py_round2 (parse_usdt_value amount_hex))

/-- All order lookups a whole transaction's contract list triggers. -/
def process_usdt_transaction (cfg : TronConfig) (contracts : List TronContract) :
    List ℚ :=
  contracts.filterMap (process_usdt_contract cfg)

/-! ## Concrete data for claim C7 -/

/-- The byte payload used in the C7 counterexample: a raw 20-byte account
payload whose first byte happens to be the network prefix value `0x41`. -/
def payloadC7 : List Nat := 65 :: List.replicate 19 0

/-! ## Concrete data for claim C6 -/

/-- Hex of the configured token contract (prefixed raw form). -/
def contractHexC6 : List Char :=
  "41a614f803b6fd780986a42c78ec9c7f77e6ded13c".toList

/-- Hex of the receiving wallet's 20-byte payload (as it appears in the
call data's address field). -/
def destHexC6 : List Char := "eca9bc828a3005b9a3b909f2cc5c2a54794de05f".toList

/-- A well-formed 64-hex-character amount field: 2.000000 USDT. -/
def amtGoodC6 : List Char := List.replicate 58 '0' ++ "1e8480".toList

/-- A malformed amount field: 64 non-hex characters. -/
def amtBadC6 : List Char := List.replicate 64 'z'

/-- Call payload with a *wrong* method selector (`00000000` instead of
`a9059cbb`) but the correct fixed-offset address field. -/
def dataSelC6 : List Char :=
  "00000000".toList ++ List.replicate 24 '0' ++ destHexC6 ++ amtGoodC6

/-- Call payload with the correct selector but a malformed amount
field. -/
def dataBadC6 : List Char :=
  "a9059cbb".toList ++ List.replicate 24 '0' ++ destHexC6 ++ amtBadC6

/-- Decoder configuration matching the two payloads above. -/
def cfgC6 : TronConfig :=
  { usdt_contract := hex_to_address contractHexC6,
    wallet_address := hex_to_address destHexC6 }

/-- Contract entry with the wrong method selector. -/
def cSelC6 : TronContract :=
  { ctype := "TriggerSmartContract", contract_address := contractHexC6,
    owner_address := [], data := dataSelC6 }

/-- Contract entry with a malformed amount field. -/
def cBadC6 : TronContract :=
  { ctype := "TriggerSmartContract", contract_address := contractHexC6,
    owner_address := [], data := dataBadC6 }

/-! ## Generic list helpers -/

/-- The `find?` commutes with a map that does not change the predicate. -/
theorem find?_map_stable {α : Type} (f : α → α) (q : α → Bool)
    (h : ∀ a, q (f a) = q a) (l : List α) :
    (l.map f).find? q = (l.find? q).map f := by
  induction l with
  | nil => rfl
  | cons a l ih =>
      by_cases ha : q a = true
      · rw [List.map_cons, List.find?_cons_of_pos _ ((h a).trans ha),
          List.find?_cons_of_pos _ ha, Option.map_some']
      · rw [List.map_cons,
          List.find?_cons_of_neg _ (by rw [h a]; simpa using ha),
          List.find?_cons_of_neg _ (by simpa using ha), ih]

/-- The balance-row update of `change_balance` keeps `user_id`. -/
theorem changeUpd_keeps_uid (uid : Nat) (amount : ℚ) (change_type : String)
    (r : BalanceRow) :
    (changeUpd uid amount change_type r).user_id = r.user_id := by
  unfold changeUpd
  split
  · split
    · rfl
    · split <;> rfl
  · rfl

/-- The `find?` by user id over a `change_balance` table update. -/
theorem find?_changeUpd (l : List BalanceRow) (uid : Nat) (amount : ℚ)
    (ct : String) :
    (l.map (changeUpd uid amount ct)).find? (fun r => r.user_id == uid) =
      (l.find? (fun r => r.user_id == uid)).map (changeUpd uid amount ct) :=
  find?_map_stable _ _ (fun a => by rw [changeUpd_keeps_uid]) l

/-- The `changeUpd` on the matching row with a non-negative non-`admin_set`
delta adds exactly the delta to the balance. -/
theorem changeUpd_balance (uid : Nat) (p : ℚ) (r : BalanceRow)
    (hr : r.user_id = uid) :
    (changeUpd uid p "recharge" r).balance = r.balance + p := by
  by_cases hp0 : p > 0 <;>
    simp [changeUpd, hr, hp0]

/-- First-row read after `change_balance` with a non-negative delta and a
non-`admin_set` change type: the visible balance grows by exactly the
delta (creating the row when absent, as `get_balance` does). -/
theorem change_balance_credits (db : Db) (uid : Nat) (p : ℚ) (hp : 0 ≤ p) :
    (get_balance (change_balance db uid p "recharge").2 uid).1 =
      (get_balance db uid).1 + p := by
  cases hf : findBalanceRow db uid with
  | some r =>
      simp only [findBalanceRow] at hf
      have hq := List.find?_some hf
      have hruid : r.user_id = uid := by simpa using hq
      have hng : ¬(p < 0 ∧ r.balance + p < 0) := by
        intro hc; exact absurd hp (not_le.mpr hc.1)
      simp only [change_balance, get_balance, findBalanceRow, hf, if_neg hng]
      rw [find?_changeUpd, hf, Option.map_some']
      dsimp only
      rw [changeUpd_balance uid p r hruid]
  | none =>
      simp only [findBalanceRow] at hf
      have hng : ¬(p < 0 ∧ (0 : ℚ) + p < 0) := by
        intro hc; exact absurd hp (not_le.mpr hc.1)
      simp only [change_balance, get_balance, findBalanceRow, hf, if_neg hng]
      have h1 : List.find? (fun r => r.user_id == uid)
          [(⟨uid, 0, 0, 0⟩ : BalanceRow)] = some ⟨uid, 0, 0, 0⟩ := by
        simp [List.find?]
      rw [find?_changeUpd, List.find?_append, hf, Option.none_or, h1,
        Option.map_some']
      dsimp only
      rw [changeUpd_balance uid p _ rfl]

/-- Reading a balance only looks at the `balances` table. -/
theorem get_balance_fst_congr (db db' : Db) (uid : Nat)
    (h : db.balances = db'.balances) :
    (get_balance db uid).1 = (get_balance db' uid).1 := by
  unfold get_balance findBalanceRow
  rw [h]
  cases db'.balances.find? (fun r => r.user_id == uid) <;> rfl

/-- The order-row update of `update_order_status` keeps `order_id`. -/
theorem orderUpd_keeps_oid (oid status : String) (tx : Option String)
    (now : Nat) (o : OrderRow) :
    (orderStatusUpd oid status tx now o).order_id = o.order_id := by
  unfold orderStatusUpd
  cases tx <;> dsimp only <;> split <;> rfl

/-- The `find?` by order id over an `update_order_status` table update. -/
theorem find?_orderUpd (l : List OrderRow) (oid status : String)
    (tx : Option String) (now : Nat) :
    (l.map (orderStatusUpd oid status tx now)).find?
        (fun o => o.order_id == oid) =
      (l.find? (fun o => o.order_id == oid)).map
        (orderStatusUpd oid status tx now) :=
  find?_map_stable _ _ (fun a => by rw [orderUpd_keeps_oid]) l

/-! ## Claim C10 -/

/-- Claim C10: `get_balance` is not a pure read — when no balance row
exists for the user it inserts (and commits) a fresh row with balance 0
and returns 0; when a row exists it returns the stored balance and leaves
the store unchanged. -/
theorem c10_get_balance_creates_account (db : Db) (uid : Nat) :
    (findBalanceRow db uid = none →
      get_balance db uid =
        (0, { db with balances := db.balances ++ [⟨uid, 0, 0, 0⟩] })) ∧
    (∀ r, findBalanceRow db uid = some r →
      get_balance db uid = (r.balance, db)) := by
  refine ⟨fun h => ?_, fun r h => ?_⟩ <;> simp only [get_balance, h]

/-- Witness for C10 at a concrete absent user and a concrete present user. -/
theorem c10_witness :
    get_balance ⟨[], [], [], []⟩ 7 = (0, ⟨[], [⟨7, 0, 0, 0⟩], [], []⟩) ∧
    get_balance ⟨[], [⟨7, 5, 0, 0⟩], [], []⟩ 7 =
      (5, ⟨[], [⟨7, 5, 0, 0⟩], [], []⟩) :=
  ⟨(c10_get_balance_creates_account ⟨[], [], [], []⟩ 7).1 rfl,
   (c10_get_balance_creates_account ⟨[], [⟨7, 5, 0, 0⟩], [], []⟩ 7).2
     ⟨7, 5, 0, 0⟩ rfl⟩

/-- The `findOrder` reads only the `orders` table. -/
theorem findOrder_orders (db : Db) (oid : String) :
    findOrder db oid = db.orders.find? (fun o => o.order_id == oid) := rfl

/-- The `change_balance` leaves the `orders` table unchanged. -/
theorem change_balance_orders (db : Db) (uid : Nat) (a : ℚ) (ct : String) :
    (change_balance db uid a ct).2.orders = db.orders := by
  unfold change_balance get_balance
  cases findBalanceRow db uid <;> dsimp only <;> split <;> rfl

/-- The `release_identifier` leaves the `orders` table unchanged. -/
theorem release_identifier_orders (db : Db) (i : ℚ) (c : String) (now : Nat) :
    (release_identifier db i c now).2.orders = db.orders := rfl

/-- The `release_identifier` leaves the `balances` table unchanged. -/
theorem release_identifier_balances (db : Db) (i : ℚ) (c : String) (now : Nat) :
    (release_identifier db i c now).2.balances = db.balances := rfl

/-! ## Claim C1 -/

/-- Claim C1 counterexample: calling `complete_recharge_order` on an order
that is already `completed` is not a no-op returning false — it returns
true, credits the owner's balance again (50 ↦ 60) and overwrites the
stored tx hash. -/
theorem c1_counterexample :
    (complete_recharge_order dbC1 "RO1" "tx2" 10 20).1 = true ∧
    (get_balance (complete_recharge_order dbC1 "RO1" "tx2" 10 20).2 7).1 = 60 ∧
    (findOrder (complete_recharge_order dbC1 "RO1" "tx2" 10 20).2 "RO1").map
      OrderRow.tx_hash = some (some "tx2") := by
  have hra : ("recharge" = "admin_set") = False := by decide
  norm_num [dbC1, complete_recharge_order, findOrder, update_order_status,
    orderStatusUpd, change_balance, get_balance, findBalanceRow,
    release_identifier, changeUpd, List.find?, hra]

/-- Claim C1 (amended): `complete_recharge_order` performs no status
check.  It returns false exactly when no order with the id exists; on any
existing order — terminal states included — it sets the status to
`completed`, overwrites the tx hash, and credits the owner's balance by
`points_awarded`, so a repeated call credits the owner again.  (In the
scanner's own call path double credit is prevented only upstream, because
`find_order_by_amount` returns pending orders.) -/
theorem c1_complete_unguarded (db : Db) (oid tx : String) (p : ℚ) (now : Nat) :
    ((complete_recharge_order db oid tx p now).1 = true ↔
      (findOrder db oid).isSome = true) ∧
    (∀ o, findOrder db oid = some o → 0 ≤ p →
      findOrder (complete_recharge_order db oid tx p now).2 oid =
        some { o with status := "completed", tx_hash := some tx,
                      completed_at := some now } ∧
      (get_balance (complete_recharge_order db oid tx p now).2 o.user_id).1 =
        (get_balance db o.user_id).1 + p) := by
  constructor
  · cases hf : findOrder db oid <;>
      simp [complete_recharge_order, hf]
  · intro o hf hp
    have hf' : db.orders.find? (fun o => o.order_id == oid) = some o := by
      simpa [findOrder] using hf
    have hoid : o.order_id = oid := by
      have hq := List.find?_some hf'
      simpa using hq
    have h1 : (complete_recharge_order db oid tx p now).2 =
        (release_identifier
          (change_balance (update_order_status db oid "completed"
            (some tx) now).2 o.user_id p "recharge").2
          o.actual_amount o.currency now).2 := by
      simp only [complete_recharge_order, hf]
    constructor
    · rw [h1, findOrder_orders, release_identifier_orders,
        change_balance_orders]
      have : (update_order_status db oid "completed" (some tx) now).2.orders =
          db.orders.map (orderStatusUpd oid "completed" (some tx) now) := rfl
      rw [this, find?_orderUpd, hf', Option.map_some']
      simp [orderStatusUpd, hoid]
    · rw [h1]
      rw [get_balance_fst_congr _ ((change_balance (update_order_status db oid
        "completed" (some tx) now).2 o.user_id p "recharge").2) o.user_id
        (release_identifier_balances _ _ _ _)]
      rw [change_balance_credits _ o.user_id p hp]
      exact congrArg (· + p) (get_balance_fst_congr _ db o.user_id rfl)

/-- Witness for C1's amended theorem: the completed order of `dbC1` is
found, so a second completion returns true and credits user 7 again. -/
theorem c1_witness :
    findOrder
        (complete_recharge_order dbC1 "RO1" "tx2" 10 20).2 "RO1" =
      some { order_id := "RO1", user_id := 7, currency := "TRX",
             amount := 100, actual_amount := 10037/100,
             status := "completed", wallet_address := "W",
             tx_hash := some "tx2", expired_at := 1000,
             completed_at := some 20 } ∧
    (get_balance (complete_recharge_order dbC1 "RO1" "tx2" 10 20).2 7).1 =
      (get_balance dbC1 7).1 + 10 :=
  (c1_complete_unguarded dbC1 "RO1" "tx2" 10 20).2
    { order_id := "RO1", user_id := 7, currency := "TRX",
      amount := 100, actual_amount := 10037/100,
      status := "completed", wallet_address := "W",
      tx_hash := some "tx1", expired_at := 1000, completed_at := some 10 }
    rfl (by decide)

/-! ## Claim C5 -/

/-- Claim C5 counterexample: `cancel_order` succeeds on an order that is
already `completed` — a terminal state is not absorbing.  The call
returns true and the status becomes `cancelled`. -/
theorem c5_counterexample :
    (cancel_order dbC5 "RO2" 30).1 = true ∧
    (findOrder (cancel_order dbC5 "RO2" 30).2 "RO2").map OrderRow.status =
      some "cancelled" := by
  norm_num [dbC5, cancel_order, findOrder, update_order_status,
    orderStatusUpd, release_identifier, List.find?]

/-- Claim C5 (amended): neither `update_order_status` nor `cancel_order`
checks the current status.  `update_order_status` rewrites any order to
any status; `cancel_order` returns false exactly when the order id does
not exist and otherwise sets the status to `cancelled` (and releases the
identifier) regardless of the current status, terminal states included. -/
theorem c5_cancel_unguarded (db : Db) (oid : String) (now : Nat) :
    ((cancel_order db oid now).1 = true ↔ (findOrder db oid).isSome = true) ∧
    (∀ o, findOrder db oid = some o →
      findOrder (cancel_order db oid now).2 oid =
        some { o with status := "cancelled" }) := by
  constructor
  · cases hf : findOrder db oid <;> simp [cancel_order, hf]
  · intro o hf
    have hf' : db.orders.find? (fun o => o.order_id == oid) = some o := by
      simpa [findOrder] using hf
    have hoid : o.order_id = oid := by
      have hq := List.find?_some hf'
      simpa using hq
    have h1 : (cancel_order db oid now).2 =
        (release_identifier (update_order_status db oid "cancelled" none
          now).2 o.actual_amount o.currency now).2 := by
      simp only [cancel_order, hf]
    rw [h1, findOrder_orders, release_identifier_orders]
    have h2 : (update_order_status db oid "cancelled" none now).2.orders =
        db.orders.map (orderStatusUpd oid "cancelled" none now) := rfl
    rw [h2, find?_orderUpd, hf', Option.map_some']
    simp [orderStatusUpd, hoid]

/-- Witness for C5's amended theorem at the completed order of `dbC5`. -/
theorem c5_witness :
    findOrder (cancel_order dbC5 "RO2" 30).2 "RO2" =
      some { order_id := "RO2", user_id := 9, currency := "USDT",
             amount := 50, actual_amount := 5012/100,
             status := "cancelled", wallet_address := "W",
             tx_hash := some "tx9", expired_at := 1000,
             completed_at := some 10 } :=
  (c5_cancel_unguarded dbC5 "RO2" 30).2
    { order_id := "RO2", user_id := 9, currency := "USDT",
      amount := 50, actual_amount := 5012/100,
      status := "completed", wallet_address := "W",
      tx_hash := some "tx9", expired_at := 1000, completed_at := some 10 }
    rfl

/-! ## Allocator lemmas -/

/-- Characterisation of the allocator loop's effect on the table: either
it inserts exactly one row whose key was entirely absent (returning its
decorated amount), or it leaves the table unchanged (returning `none`,
via exhaustion or via the `UNIQUE`-violation rollback). -/
theorem allocateGo_table (base : ℚ) (cur : String) (tbl : List IdentRow) :
    ∀ rs used,
      (∃ v, allocateGo base cur tbl rs used =
          (some v, tbl ++ [⟨v, cur, false, none, none⟩]) ∧
          hasAnyRow tbl v cur = false) ∨
      allocateGo base cur tbl rs used = (none, tbl) := by
  intro rs
  induction rs with
  | nil => intro used; exact Or.inr rfl
  | cons r rs ih =>
      intro used
      unfold allocateGo
      by_cases hmem : r ∈ used
      · rw [if_pos hmem]; exact ih used
      · rw [if_neg hmem]
        by_cases hu : hasUnusedRow tbl (base + (r : ℚ) / 100) cur
        · rw [if_pos hu]; exact ih (r :: used)
        · rw [if_neg hu]
          by_cases ha : hasAnyRow tbl (base + (r : ℚ) / 100) cur
          · rw [if_pos ha]; exact Or.inr rfl
          · rw [if_neg ha]
            exact Or.inl ⟨base + (r : ℚ) / 100, rfl, by simpa using ha⟩

/-- A successful allocation returns an amount built from one of the drawn
suffixes, whose key had no row at all in the table. -/
theorem allocateGo_some (base : ℚ) (cur : String) (tbl : List IdentRow) :
    ∀ rs used v tbl',
      allocateGo base cur tbl rs used = (some v, tbl') →
      (∃ r ∈ rs, v = base + (r : ℚ) / 100) ∧ hasAnyRow tbl v cur = false ∧
      tbl' = tbl ++ [⟨v, cur, false, none, none⟩] := by
  intro rs
  induction rs with
  | nil => intro used v tbl' h; exact absurd h (by simp [allocateGo])
  | cons r rs ih =>
      intro used v tbl' h
      unfold allocateGo at h
      by_cases hmem : r ∈ used
      · rw [if_pos hmem] at h
        obtain ⟨⟨r', hr', hv⟩, ha, ht⟩ := ih used v tbl' h
        exact ⟨⟨r', List.mem_cons_of_mem _ hr', hv⟩, ha, ht⟩
      · rw [if_neg hmem] at h
        by_cases hu : hasUnusedRow tbl (base + (r : ℚ) / 100) cur
        · rw [if_pos hu] at h
          obtain ⟨⟨r', hr', hv⟩, ha, ht⟩ := ih (r :: used) v tbl' h
          exact ⟨⟨r', List.mem_cons_of_mem _ hr', hv⟩, ha, ht⟩
        · rw [if_neg hu] at h
          by_cases ha : hasAnyRow tbl (base + (r : ℚ) / 100) cur
          · rw [if_pos ha] at h; exact absurd h (by simp)
          · rw [if_neg ha] at h
            obtain ⟨hv, ht⟩ := Prod.mk.injEq .. ▸ h
            refine ⟨⟨r, List.mem_cons_self r rs, ?_⟩, ?_, ?_⟩
            · exact (Option.some.injEq .. ▸ hv).symm
            · have hv' : v = base + (r : ℚ) / 100 :=
                (Option.some.injEq .. ▸ hv).symm
              rw [hv']; simpa using ha
            · have hv' : v = base + (r : ℚ) / 100 :=
                (Option.some.injEq .. ▸ hv).symm
              rw [hv', ← ht]

/-- When every candidate amount already has an `is_used = 0` row, the
loop retries until the suffix stream is exhausted and returns `none`. -/
theorem allocateGo_exhausts (base : ℚ) (cur : String) (tbl : List IdentRow)
    (htaken : ∀ k : Nat, 1 ≤ k → k ≤ 99 →
      hasUnusedRow tbl (base + (k : ℚ) / 100) cur = true) :
    ∀ rs used, (∀ r ∈ rs, 1 ≤ r ∧ r ≤ 99) →
      (allocateGo base cur tbl rs used).1 = none := by
  intro rs
  induction rs with
  | nil => intro used _; rfl
  | cons r rs ih =>
      intro used hb
      unfold allocateGo
      by_cases hmem : r ∈ used
      · rw [if_pos hmem]
        exact ih used (fun x hx => hb x (List.mem_cons_of_mem _ hx))
      · rw [if_neg hmem]
        have hr := hb r (List.mem_cons_self r rs)
        rw [if_pos (htaken r hr.1 hr.2)]
        exact ih (r :: used) (fun x hx => hb x (List.mem_cons_of_mem _ hx))

/-! ## Claim C2 -/

/-- Bridge between the two boolean forms of the key predicate. -/
theorem keyPred_eq (i : ℚ) (c : String) (r : IdentRow) :
    (r.identifier == i && r.currency == c) =
      decide (r.identifier = i ∧ r.currency = c) := by
  by_cases h1 : r.identifier = i <;> by_cases h2 : r.currency = c <;>
    simp [h1, h2]

/-- A key with no row at all has `keyCount` zero. -/
theorem keyCount_eq_zero (tbl : List IdentRow) (i : ℚ) (c : String)
    (h : hasAnyRow tbl i c = false) : keyCount tbl i c = 0 := by
  unfold hasAnyRow at h
  unfold keyCount
  rw [List.length_eq_zero, List.filter_eq_nil_iff]
  intro r hr
  have := (List.any_eq_false.mp h) r hr
  rw [keyPred_eq] at this
  simpa using this

/-- Row maps that keep the key fields keep `keyCount`. -/
theorem keyCount_map (f : IdentRow → IdentRow)
    (hf : ∀ r, (f r).identifier = r.identifier ∧ (f r).currency = r.currency)
    (tbl : List IdentRow) (i : ℚ) (c : String) :
    keyCount (tbl.map f) i c = keyCount tbl i c := by
  unfold keyCount
  rw [← List.countP_eq_length_filter, ← List.countP_eq_length_filter,
    List.countP_map]
  refine List.countP_congr (fun r _ => ?_)
  have h1 := (hf r).1
  have h2 := (hf r).2
  simp only [Function.comp_apply, h1, h2]

/-- The `keyCount` over an appended fresh row. -/
theorem keyCount_append_one (tbl : List IdentRow) (row : IdentRow)
    (i : ℚ) (c : String) :
    keyCount (tbl ++ [row]) i c =
      keyCount tbl i c + (if row.identifier = i ∧ row.currency = c then 1 else 0) := by
  unfold keyCount
  rw [List.filter_append]
  by_cases h : row.identifier = i ∧ row.currency = c <;>
    simp [List.filter, h]

/-- Every identifier-table operation preserves per-key uniqueness. -/
theorem applyIdentOp_preserves (tbl : List IdentRow) (op : IdentOp)
    (h : ∀ i c, keyCount tbl i c ≤ 1) :
    ∀ i c, keyCount (applyIdentOp tbl op) i c ≤ 1 := by
  intro i c
  cases op with
  | alloc rand base cur =>
      simp only [applyIdentOp, allocate_amount_identifier]
      rcases allocateGo_table base cur tbl (rand.take 100) [] with
        ⟨v, heq, habs⟩ | heq
      · rw [heq]
        rw [keyCount_append_one]
        by_cases hk : (⟨v, cur, false, none, none⟩ : IdentRow).identifier = i ∧
            (⟨v, cur, false, none, none⟩ : IdentRow).currency = c
        · rw [if_pos hk]
          have h0 : keyCount tbl i c = 0 := by
            have hvi : v = i := hk.1
            have hcc : cur = c := hk.2
            rw [← hvi, ← hcc]
            exact keyCount_eq_zero tbl v cur habs
          omega
        · rw [if_neg hk]
          simpa using h i c
      · rw [heq]; exact h i c
  | markUsed i' c' oid =>
      simp only [applyIdentOp, mark_identifier_used]
      rw [keyCount_map (markUsedUpd i' c' oid)
        (fun r => by unfold markUsedUpd; split <;> exact ⟨rfl, rfl⟩) tbl i c]
      exact h i c
  | release i' c' now =>
      simp only [applyIdentOp, release_identifier]
      rw [keyCount_map (releaseUpd i' c' now)
        (fun r => by unfold releaseUpd; split <;> exact ⟨rfl, rfl⟩) tbl i c]
      exact h i c

/-- Claim C2: decorated-amount uniqueness.  Starting from an empty
`amount_identifiers` table, after any sequence of allocate / mark-used /
release operations at most one row exists per `(decorated_amount,
currency)` key; in particular no two allocations can have returned the
same decorated amount while both are in flight, since a successful
allocation requires the key to be absent and rows are never deleted. -/
theorem c2_identifier_uniqueness (ops : List IdentOp) (i : ℚ) (c : String) :
    keyCount (ops.foldl applyIdentOp []) i c ≤ 1 := by
  suffices h : ∀ tbl, (∀ i c, keyCount tbl i c ≤ 1) →
      ∀ i c, keyCount (ops.foldl applyIdentOp tbl) i c ≤ 1 by
    exact h [] (fun _ _ => by simp [keyCount]) i c
  induction ops with
  | nil => intro tbl h i c; exact h i c
  | cons op ops ih =>
      intro tbl h i c
      exact ih (applyIdentOp tbl op) (applyIdentOp_preserves tbl op h) i c

/-! ## Claim C8 -/

/-- Claim C8: allocator contract.  Given suffixes drawn by
`random.randint(1, 99)`, a successful allocation returns
`base_amount + k/100` with `1 ≤ k ≤ 99` whose key had no record at
reservation time; the loop draws at most 100 candidates, and when every
candidate amount is taken (has an `is_used = 0` record) the call reports
exhaustion by returning `none` rather than any amount. -/
theorem c8_allocate_contract (rand : List Nat) (base : ℚ) (cur : String)
    (tbl : List IdentRow) (hr : ∀ r ∈ rand, 1 ≤ r ∧ r ≤ 99) :
    (∀ v tbl', allocate_amount_identifier rand base cur tbl = (some v, tbl') →
      ∃ k : Nat, 1 ≤ k ∧ k ≤ 99 ∧ v = base + (k : ℚ) / 100 ∧
        hasAnyRow tbl v cur = false) ∧
    ((∀ k : Nat, 1 ≤ k → k ≤ 99 →
        hasUnusedRow tbl (base + (k : ℚ) / 100) cur = true) →
      (allocate_amount_identifier rand base cur tbl).1 = none) := by
  constructor
  · intro v tbl' h
    obtain ⟨⟨r, hrm, hv⟩, ha, _⟩ :=
      allocateGo_some base cur tbl (rand.take 100) [] v tbl' h
    have hb := hr r (List.take_subset 100 rand hrm)
    exact ⟨r, hb.1, hb.2, hv, ha⟩
  · intro htaken
    exact allocateGo_exhausts base cur tbl htaken (rand.take 100) []
      (fun r hrm => hr r (List.take_subset 100 rand hrm))

/-- Witness for C8 at suffix stream `[5]`, base 100 and an empty table. -/
theorem c8_witness :
    ∃ k : Nat, 1 ≤ k ∧ k ≤ 99 ∧
      (100 : ℚ) + ((5 : Nat) : ℚ) / 100 = 100 + (k : ℚ) / 100 ∧
      hasAnyRow [] ((100 : ℚ) + ((5 : Nat) : ℚ) / 100) "TRX" = false :=
  (c8_allocate_contract [5] 100 "TRX" [] (by decide)).1
    (100 + ((5 : Nat) : ℚ) / 100)
    [⟨100 + ((5 : Nat) : ℚ) / 100, "TRX", false, none, none⟩] rfl

/-! ## Claim C4 -/

/-- Claim C4 evaluation: release does *not* make the decorated amount
available again.  With the released record for 100.37 TRX present, an
allocation drawing suffix 37 treats the amount as occupied and fails;
no suffix stream can ever make the allocator return 100.37 again (any
existing record blocks the key); release itself is idempotent. -/
theorem c4_release_no_reuse :
    (allocate_amount_identifier [37] 100 "TRX" tblC4).1 = none ∧
    (∀ rand, (allocate_amount_identifier rand 100 "TRX" tblC4).1 ≠
      some (10037/100 : ℚ)) ∧
    (∀ db i c now,
      (release_identifier (release_identifier db i c now).2 i c now).2 =
        (release_identifier db i c now).2) := by
  refine ⟨?_, ?_, ?_⟩
  · norm_num [allocate_amount_identifier, allocateGo, tblC4, hasUnusedRow,
      hasAnyRow]
  · intro rand h
    have heq : allocate_amount_identifier rand 100 "TRX" tblC4 =
        (some (10037/100 : ℚ),
          (allocate_amount_identifier rand 100 "TRX" tblC4).2) := by
      rw [← h]
    obtain ⟨_, ha, _⟩ :=
      allocateGo_some 100 "TRX" tblC4 (rand.take 100) [] _ _ heq
    have : hasAnyRow tblC4 (10037/100 : ℚ) "TRX" = true := by
      norm_num [hasAnyRow, tblC4]
    rw [this] at ha
    exact absurd ha (by simp)
  · intro db i c now
    have hff : ∀ r : IdentRow,
        releaseUpd i c now (releaseUpd i c now r) = releaseUpd i c now r := by
      intro r
      unfold releaseUpd
      by_cases hc : r.identifier = i ∧ r.currency = c <;> simp [hc]
    simp only [release_identifier, List.map_map]
    have : (releaseUpd i c now ∘ releaseUpd i c now) = releaseUpd i c now :=
      funext hff
    rw [this]

/-! ## Claim C9 -/

/-- After a key-preserving overwrite, the lookup finds the new pair. -/
theorem find?_set_map (l : List (String × ℚ)) (k : String) (v : ℚ)
    (h : l.any (fun p => p.1 == k) = true) :
    (l.map (fun p => if p.1 = k then (k, v) else p)).find?
      (fun p => p.1 == k) = some (k, v) := by
  induction l with
  | nil => simp at h
  | cons p l ih =>
      by_cases hp : p.1 = k
      · rw [List.map_cons, if_pos hp]
        exact List.find?_cons_of_pos _ (by simp)
      · rw [List.map_cons, if_neg hp]
        rw [List.find?_cons_of_neg _ (by simpa using hp)]
        refine ih ?_
        simpa [List.any_cons, hp] using h

/-- Appending a fresh pair makes it the lookup result when the key was
absent. -/
theorem find?_set_append (l : List (String × ℚ)) (k : String) (v : ℚ)
    (h : l.any (fun p => p.1 == k) = false) :
    (l ++ [(k, v)]).find? (fun p => p.1 == k) = some (k, v) := by
  rw [List.find?_append]
  have hn : l.find? (fun p => p.1 == k) = none := by
    rw [List.find?_eq_none]
    intro p hp
    exact (List.any_eq_false.mp h) p hp
  rw [hn, Option.none_or]
  exact List.find?_cons_of_pos _ (by simp)

/-- Writing a key then reading it yields the written value. -/
theorem alistGet_set_self (l : List (String × ℚ)) (k : String) (v : ℚ) :
    alistGet (alistSet l k v) k = v := by
  unfold alistGet alistSet
  by_cases h : l.any (fun p => p.1 == k) = true
  · rw [if_pos h, find?_set_map l k v h]
  · rw [if_neg h, find?_set_append l k v
      (by simp only [Bool.not_eq_true] at h; exact h)]

/-- Claim C9 counterexample: `set_fixed_rate` does not invalidate the
cache.  With a cached TRX rate of 5 whose TTL has not expired, setting
the fixed TRX rate to 9 and then reading the rate still returns the
stale cached 5, not 9. -/
theorem c9_counterexample :
    (get_trx_rate none (set_fixed_rate stC9 "TRX" 9) 50).1 = 5 ∧
    (5 : ℚ) ≠ 9 := by
  constructor
  · norm_num [get_trx_rate, set_fixed_rate, stC9, is_cache_valid, alistGet,
      alistSet, initialFixedRates, List.find?, List.any]
  · norm_num

/-- Claim C9 (amended): `set_fixed_rate` updates only the fixed-rate
table and leaves both cache tables untouched, so while the cached entry's
TTL is still valid a subsequent `get_trx_rate` returns the previously
cached value, not the newly set rate; the new rate is observed
immediately only after an explicit `clear_cache` (as the admin call sites
do), e.g. with the API disabled the post-clear read returns it. -/
theorem c9_set_fixed_rate_no_invalidate (st : ExchangeState) (cur : String)
    (r : ℚ) (fetch : Option ℚ) (now : Nat) :
    (set_fixed_rate st cur r).rate_cache = st.rate_cache ∧
    (set_fixed_rate st cur r).cache_expire_time = st.cache_expire_time ∧
    (is_cache_valid st "TRX_POINTS" now = true →
      (get_trx_rate fetch (set_fixed_rate st cur r) now).1 =
        alistGet st.rate_cache "TRX_POINTS") ∧
    (st.use_api = false →
      (get_trx_rate fetch (clear_cache (set_fixed_rate st "TRX" r)) now).1 =
        r) := by
  refine ⟨rfl, rfl, fun hvalid => ?_, fun hapi => ?_⟩
  · have h1 : is_cache_valid (set_fixed_rate st cur r) "TRX_POINTS" now =
        true := hvalid
    simp only [get_trx_rate, h1, if_true]
    rfl
  · have h2 : is_cache_valid (clear_cache (set_fixed_rate st "TRX" r))
        "TRX_POINTS" now = false := rfl
    have h3 : (clear_cache (set_fixed_rate st "TRX" r)).use_api = false :=
      hapi
    simp only [get_trx_rate, h2, h3, Bool.false_eq_true, if_false,
      Bool.not_false, if_true]
    exact alistGet_set_self _ "TRX_POINTS" r

/-- Witness for C9's amended theorem: the stale cached 5 survives a
`set_fixed_rate` to 9, and with the API disabled a `clear_cache` makes
the new rate 9 visible. -/
theorem c9_witness :
    (get_trx_rate none (set_fixed_rate stC9 "TRX" 9) 50).1 =
      alistGet stC9.rate_cache "TRX_POINTS" ∧
    (get_trx_rate none (clear_cache (set_fixed_rate stC9off "TRX" 9)) 50).1 =
      9 :=
  ⟨(c9_set_fixed_rate_no_invalidate stC9 "TRX" 9 none 50).2.2.1 rfl,
   (c9_set_fixed_rate_no_invalidate stC9off "TRX" 9 none 50).2.2.2 rfl⟩

/-! ## Scan-cursor lemmas -/

/-- Left fold of `max` in terms of the right fold. -/
theorem foldl_max_eq (l : List Nat) (a : Nat) :
    l.foldl max a = max a (l.foldr max 0) := by
  induction l generalizing a with
  | nil => simp
  | cons x xs ih => simp [List.foldl_cons, ih (max a x), Nat.max_assoc]

/-- The `get_last_scanned_block` returns exactly the cursor value. -/
theorem get_last_eq_cursorVal (s : ScanState) (c : Nat)
    (h : get_last_scanned_block s = some c) : cursorVal s = c := by
  unfold get_last_scanned_block at h
  unfold cursorVal
  cases hs : s.saved with
  | nil => rw [hs] at h; exact absurd h (by simp)
  | cons b bs =>
      rw [hs] at h
      have := Option.some.injEq .. ▸ h
      rw [List.foldr_cons, ← foldl_max_eq bs b]
      exact this

/-- A non-empty record set yields `some` of the cursor value. -/
theorem get_last_of_ne_nil (s : ScanState) (h : s.saved ≠ []) :
    get_last_scanned_block s = some (cursorVal s) := by
  unfold get_last_scanned_block cursorVal
  cases hs : s.saved with
  | nil => exact absurd hs h
  | cons b bs => rw [List.foldr_cons, ← foldl_max_eq bs b]

/-- The `scan_block` only appends to the two logs. -/
theorem scan_block_effect (f : Nat → Option (List Unit)) (b : Nat)
    (s : ScanState) :
    ((scan_block f b s).saved = s.saved ∨
      (scan_block f b s).saved = s.saved ++ [b]) ∧
    ((scan_block f b s).processed = s.processed ∨
      (scan_block f b s).processed = s.processed ++ [b]) := by
  unfold scan_block
  cases f b with
  | none => exact ⟨Or.inl rfl, Or.inl rfl⟩
  | some txs =>
      by_cases he : txs.isEmpty <;>
        simp [he]

/-- Folding `scan_block` over a block list appends to `saved` some subset
of the list. -/
theorem scanFold_saved (f : Nat → Option (List Unit)) (l : List Nat) :
    ∀ s : ScanState, ∃ t,
      (l.foldl (fun s b => scan_block f b s) s).saved = s.saved ++ t := by
  induction l with
  | nil => intro s; exact ⟨[], by simp⟩
  | cons b l ih =>
      intro s
      rw [List.foldl_cons]
      obtain ⟨t, ht⟩ := ih (scan_block f b s)
      rcases (scan_block_effect f b s).1 with h | h
      · exact ⟨t, by rw [ht, h]⟩
      · exact ⟨b :: t, by rw [ht, h, List.append_assoc]; rfl⟩

/-- Folding `scan_block` over a block list appends to `processed` a
subset of the list. -/
theorem scanFold_processed (f : Nat → Option (List Unit)) (l : List Nat) :
    ∀ s : ScanState, ∃ t,
      (l.foldl (fun s b => scan_block f b s) s).processed =
        s.processed ++ t ∧ ∀ b ∈ t, b ∈ l := by
  induction l with
  | nil => intro s; exact ⟨[], by simp, by simp⟩
  | cons b l ih =>
      intro s
      rw [List.foldl_cons]
      obtain ⟨t, ht, hm⟩ := ih (scan_block f b s)
      rcases (scan_block_effect f b s).2 with h | h
      · exact ⟨t, by rw [ht, h],
          fun x hx => List.mem_cons_of_mem _ (hm x hx)⟩
      · refine ⟨b :: t, by rw [ht, h, List.append_assoc]; rfl, ?_⟩
        intro x hx
        rcases List.mem_cons.mp hx with hx | hx
        · exact hx ▸ List.mem_cons_self b l
        · exact List.mem_cons_of_mem _ (hm x hx)

/-- The cursor value never decreases across an appended record set. -/
theorem cursorVal_append (l t : List Nat) :
    (l.foldr max 0 : Nat) ≤ (l ++ t).foldr max 0 := by
  rw [List.foldr_append]
  induction l with
  | nil => simp
  | cons x xs ih => simp only [List.foldr_cons]; omega

/-- One scan cycle never decreases the cursor. -/
theorem scanCycle_cursor_mono (f : Nat → Option (List Unit)) (tip : Nat)
    (s : ScanState) : cursorVal s ≤ cursorVal (scanCycle f tip s) := by
  unfold scanCycle
  obtain ⟨t, ht⟩ := scanFold_saved f
    (List.range' (resumePoint s tip + 1) (tip - resumePoint s tip)) s
  unfold cursorVal
  rw [ht]
  exact cursorVal_append s.saved t

/-- A whole run never decreases the cursor. -/
theorem scanRun_cursor_mono (cycles : List ((Nat → Option (List Unit)) × Nat)) :
    ∀ s : ScanState, cursorVal s ≤ cursorVal (scanRun cycles s) := by
  induction cycles with
  | nil => intro s; exact le_refl _
  | cons c rest ih =>
      intro s
      calc cursorVal s ≤ cursorVal (scanCycle c.1 c.2 s) :=
            scanCycle_cursor_mono c.1 c.2 s
        _ ≤ cursorVal (scanRun rest (scanCycle c.1 c.2 s)) :=
            ih (scanCycle c.1 c.2 s)
        _ = cursorVal (scanRun (c :: rest) s) := rfl

/-- One cycle processes only blocks in the window
`(resumePoint, tip]`. -/
theorem scanCycle_processed_window (f : Nat → Option (List Unit)) (tip : Nat)
    (s : ScanState) :
    ∃ t, (scanCycle f tip s).processed = s.processed ++ t ∧
      ∀ b ∈ t, resumePoint s tip < b ∧ b ≤ tip := by
  unfold scanCycle
  obtain ⟨t, ht, hm⟩ := scanFold_processed f
    (List.range' (resumePoint s tip + 1) (tip - resumePoint s tip)) s
  refine ⟨t, ht, fun b hb => ?_⟩
  have := List.mem_range'_1.mp (hm b hb)
  omega

/-- One cycle leaves the record set non-empty if it was non-empty. -/
theorem scanCycle_saved_ne_nil (f : Nat → Option (List Unit)) (tip : Nat)
    (s : ScanState) (h : s.saved ≠ []) : (scanCycle f tip s).saved ≠ [] := by
  unfold scanCycle
  obtain ⟨t, ht⟩ := scanFold_saved f
    (List.range' (resumePoint s tip + 1) (tip - resumePoint s tip)) s
  rw [ht]
  intro hc
  exact h (List.append_eq_nil.mp hc).1

/-- Blocks at or below a non-zero cursor are never processed by any later
cycle: every newly processed block is strictly above the cursor at the
start of the run. -/
theorem scanRun_no_reprocess
    (cycles : List ((Nat → Option (List Unit)) × Nat)) :
    ∀ (s : ScanState) (c : Nat), get_last_scanned_block s = some c → c ≠ 0 →
      ∀ b ∈ (scanRun cycles s).processed, b ∉ s.processed → c < b := by
  induction cycles with
  | nil => intro s c _ _ b hb hnb; exact absurd hb hnb
  | cons cyc rest ih =>
      intro s c hc hc0 b hb hnb
      have hcv : cursorVal s = c := get_last_eq_cursorVal s c hc
      have hresume : resumePoint s (cyc.2) = c := by
        unfold resumePoint
        rw [hc]
        dsimp only
        rw [if_neg hc0]
      obtain ⟨t, ht, hw⟩ := scanCycle_processed_window cyc.1 cyc.2 s
      have hsne : s.saved ≠ [] := by
        intro hnil
        unfold get_last_scanned_block at hc
        rw [hnil] at hc
        exact absurd hc (by simp)
      have hsne' := scanCycle_saved_ne_nil cyc.1 cyc.2 s hsne
      have hc' : get_last_scanned_block (scanCycle cyc.1 cyc.2 s) =
          some (cursorVal (scanCycle cyc.1 cyc.2 s)) :=
        get_last_of_ne_nil _ hsne'
      have hmono : c ≤ cursorVal (scanCycle cyc.1 cyc.2 s) :=
        hcv ▸ scanCycle_cursor_mono cyc.1 cyc.2 s
      have hcv0 : cursorVal (scanCycle cyc.1 cyc.2 s) ≠ 0 := by omega
      by_cases hbmid : b ∈ (scanCycle cyc.1 cyc.2 s).processed
      · rw [ht] at hbmid
        rcases List.mem_append.mp hbmid with h1 | h1
        · exact absurd h1 hnb
        · exact hresume ▸ (hw b h1).1
      · have := ih (scanCycle cyc.1 cyc.2 s) _ hc' hcv0 b hb hbmid
        omega

/-! ## Claim C3 -/

/-- Claim C3 counterexample: with the cursor at 4, a cycle at tip 5 sees
the empty block 5 and processes it without saving it; the next cycle at
tip 6 re-processes block 5 (twice in total) before block 6 advances the
cursor to 6.  Block 5 lies inside `[initial_cursor+1, final_cursor] =
[5, 6]` yet is processed twice — the cursor is not persisted after every
fully processed block, only after blocks with a non-empty transaction
list. -/
theorem c3_counterexample :
    (scanRun [(fC3, 5), (fC3, 6)] ⟨[4], []⟩).processed.count 5 = 2 ∧
    get_last_scanned_block (scanRun [(fC3, 5), (fC3, 6)] ⟨[4], []⟩) =
      some 6 ∧
    get_last_scanned_block (⟨[4], []⟩ : ScanState) = some 4 := by
  decide

/-- Claim C3 (amended): the cursor (the maximum saved block record) is
monotonically non-decreasing over any run; when no record exists the
resume point is initialised to `tip − 1` (so only block `tip` is
scanned); with a record at non-zero `c` scanning resumes from `c + 1`;
each cycle processes only blocks in `(resumePoint, tip]`, so blocks at or
below the cursor are never re-processed.  The record is persisted only
after a block with a non-empty transaction list, so an empty (or
fetch-failed) block does not advance the cursor and may be processed
again in a later cycle — "exactly once" does not hold. -/
theorem c3_cursor_behavior (s : ScanState) :
    (∀ cycles, cursorVal s ≤ cursorVal (scanRun cycles s)) ∧
    (∀ f tip, ∃ t, (scanCycle f tip s).processed = s.processed ++ t ∧
        ∀ b ∈ t, resumePoint s tip < b ∧ b ≤ tip) ∧
    (s.saved = [] → ∀ tip : Nat, resumePoint s tip = tip - 1) ∧
    (∀ c tip, get_last_scanned_block s = some c → c ≠ 0 →
        resumePoint s tip = c) ∧
    (∀ cycles c, get_last_scanned_block s = some c → c ≠ 0 →
        ∀ b ∈ (scanRun cycles s).processed, b ∉ s.processed → c < b) := by
  refine ⟨fun cycles => scanRun_cursor_mono cycles s,
    fun f tip => scanCycle_processed_window f tip s,
    fun hnil tip => ?_, fun c tip hc hc0 => ?_,
    fun cycles c hc hc0 => scanRun_no_reprocess cycles s c hc hc0⟩
  · unfold resumePoint get_last_scanned_block
    rw [hnil]
  · unfold resumePoint
    rw [hc]
    dsimp only
    rw [if_neg hc0]

/-- Witness for C3's amended theorem: first-run initialisation at tip 10,
resumption from cursor 4, and no re-processing of blocks ≤ 4 in a
concrete run. -/
theorem c3_witness :
    resumePoint ⟨[], []⟩ 10 = 10 - 1 ∧
    resumePoint ⟨[4], []⟩ 10 = 4 ∧
    (∀ b ∈ (scanRun [(fC3, 6)] ⟨[4], []⟩).processed,
      b ∉ ([] : List Nat) → 4 < b) :=
  ⟨(c3_cursor_behavior ⟨[], []⟩).2.2.1 rfl 10,
   (c3_cursor_behavior ⟨[4], []⟩).2.2.2.1 4 10 rfl (by decide),
   (c3_cursor_behavior ⟨[4], []⟩).2.2.2.2 [(fC3, 6)] 4 rfl (by decide)⟩

/-! ## SHA-256 output shape -/

/-- Each compression round yields an 8-word state. -/
theorem sha256Round_length (st : List Nat) (kw : Nat × Nat) :
    (sha256Round st kw).length = 8 := rfl

/-- The compression fold keeps the 8-word state length. -/
theorem foldl_sha256Round_length (l : List (Nat × Nat)) :
    ∀ h : List Nat, h.length = 8 → (l.foldl sha256Round h).length = 8 := by
  induction l with
  | nil => intro h hh; exact hh
  | cons x xs ih => intro h hh; exact ih _ (sha256Round_length h x)

/-- One chunk compression keeps the 8-word state length. -/
theorem sha256Compress_length (h c : List Nat) (hh : h.length = 8) :
    (sha256Compress h c).length = 8 := by
  unfold sha256Compress
  rw [List.length_map, List.length_zip, hh,
    foldl_sha256Round_length _ h hh]
  simp

/-- The chunk loop keeps the 8-word state length. -/
theorem sha256Chunks_length (n : Nat) :
    ∀ (l h : List Nat), h.length = 8 → (sha256Chunks n l h).length = 8 := by
  induction n with
  | zero => intro l h hh; exact hh
  | succ n ih =>
      intro l h hh
      exact ih _ _ (sha256Compress_length h _ hh)

/-- Word serialisation length. -/
theorem wordsToBytes_length (w : List Nat) :
    (wordsToBytes w).length = 4 * w.length := by
  induction w with
  | nil => rfl
  | cons x xs ih =>
      show (_ :: _ :: _ :: _ :: wordsToBytes xs).length = _
      simp only [List.length_cons, ih, List.length_cons]
      omega

/-- A SHA-256 digest has 32 bytes. -/
theorem sha256_length (msg : List Nat) : (sha256 msg).length = 32 := by
  show (wordsToBytes (sha256Chunks ((sha256Pad msg).length / 64)
    (sha256Pad msg) sha256H0)).length = 32
  rw [wordsToBytes_length, sha256Chunks_length ((sha256Pad msg).length / 64)
    (sha256Pad msg) sha256H0 rfl]

/-- Every digest byte is below 256. -/
theorem sha256_lt (msg : List Nat) : ∀ b ∈ sha256 msg, b < 256 := by
  intro b hb
  unfold sha256 wordsToBytes at hb
  obtain ⟨x, _, hx⟩ := List.mem_flatMap.mp hb
  simp only [List.mem_cons, List.not_mem_nil, or_false] at hx
  rcases hx with h | h | h | h <;> subst h <;>
    exact Nat.mod_lt _ (by norm_num)

/-- The checksum is 4 bytes. -/
theorem checksum4_length (bs : List Nat) : (checksum4 bs).length = 4 := by
  unfold checksum4
  rw [List.length_take, sha256_length]
  simp

/-- Every checksum byte is below 256. -/
theorem checksum4_lt (bs : List Nat) : ∀ b ∈ checksum4 bs, b < 256 :=
  fun b hb => sha256_lt _ b (List.mem_of_mem_take hb)

/-! ## Hex codec round trip -/

/-- Parsing inverts rendering on a single hex digit. -/
theorem hexDigit?_hexChar : ∀ d : Fin 16, hexDigit? (hexChar d.val) = some d.val := by
  decide

/-- Rendering a byte gives its two hex characters. -/
theorem bytesToHex_cons (b : Nat) (bs : List Nat) :
    bytesToHex (b :: bs) = hexChar (b / 16) :: hexChar (b % 16) :: bytesToHex bs := rfl

/-- The `unhexlify` inverts the hex rendering of a byte list. -/
theorem unhex_bytesToHex (bs : List Nat) (h : ∀ b ∈ bs, b < 256) :
    unhex (bytesToHex bs) = some bs := by
  induction bs with
  | nil => rfl
  | cons b bs ih =>
      have hb := h b (List.mem_cons_self b bs)
      have hhi : b / 16 < 16 := by omega
      have hlo : b % 16 < 16 := Nat.mod_lt _ (by norm_num)
      rw [bytesToHex_cons]
      show (match hexDigit? (hexChar (b / 16)), hexDigit? (hexChar (b % 16)),
        unhex (bytesToHex bs) with
        | some hi, some lo, some l => some ((16 * hi + lo) :: l)
        | _, _, _ => none) = some (b :: bs)
      rw [hexDigit?_hexChar ⟨b / 16, hhi⟩, hexDigit?_hexChar ⟨b % 16, hlo⟩,
        ih (fun x hx => h x (List.mem_cons_of_mem _ hx))]
      dsimp only
      have : 16 * (b / 16) + b % 16 = b := by omega
      rw [this]

/-- No rendered hex character is `'x'`. -/
theorem hexChar_ne_x (d : Nat) : hexChar d ≠ 'x' := by
  rcases Nat.lt_or_ge d 16 with h | h
  · exact (by decide : ∀ d : Fin 16, hexChar d.val ≠ 'x') ⟨d, h⟩
  · unfold hexChar
    rw [List.getD_eq_default _ _ (by simpa using h)]
    decide

/-- A rendered byte list never carries the `0x` transport prefix. -/
theorem bytesToHex_not_0x (bs : List Nat) :
    (['0', 'x'].isPrefixOf (bytesToHex bs) : Bool) = false := by
  cases bs with
  | nil => rfl
  | cons b bs =>
      rw [bytesToHex_cons]
      have hx : ('x' == hexChar (b % 16)) = false := by
        rw [beq_eq_false_iff_ne]
        exact fun hc => absurd hc.symm (hexChar_ne_x (b % 16))
      simp [List.isPrefixOf, hx]

/-- A rendered byte list starts with `41` exactly when its first byte is
`0x41`. -/
theorem bytesToHex_starts41 (b : Nat) (bs : List Nat) (hb : b < 256) :
    ((['4', '1'].isPrefixOf (bytesToHex (b :: bs)) : Bool) = true) ↔ b = 65 := by
  rw [bytesToHex_cons]
  have hpf : ((['4', '1'].isPrefixOf
      (hexChar (b / 16) :: hexChar (b % 16) :: bytesToHex bs) : Bool) = true) ↔
      ((('4' == hexChar (b / 16)) &&
        (('1' == hexChar (b % 16)) && true)) = true) := by
    simp [List.isPrefixOf]
  rw [hpf]
  constructor
  · intro h
    have h4 : ('4' == hexChar (b / 16)) = true := by
      cases hc : ('4' == hexChar (b / 16)) with
      | true => rfl
      | false => rw [hc] at h; exact absurd h (by simp)
    have h1 : ('1' == hexChar (b % 16)) = true := by
      rw [h4] at h
      cases hc : ('1' == hexChar (b % 16)) with
      | true => rfl
      | false => rw [hc] at h; exact absurd h (by simp)
    have hhi : b / 16 < 16 := by omega
    have hlo : b % 16 < 16 := Nat.mod_lt _ (by norm_num)
    have e4 : b / 16 = 4 := by
      have := (by decide : ∀ d : Fin 16, ('4' == hexChar d.val) = true → d.val = 4)
        ⟨b / 16, hhi⟩ h4
      exact this
    have e1 : b % 16 = 1 := by
      have := (by decide : ∀ d : Fin 16, ('1' == hexChar d.val) = true → d.val = 1)
        ⟨b % 16, hlo⟩ h1
      exact this
    omega
  · intro h
    subst h
    decide

/-! ## Base58 round trip -/

/-- The big-endian fold in terms of `Nat.ofDigits`. -/
theorem beBytes_foldl (l : List Nat) : ∀ a : Nat,
    l.foldl (fun x b => 256 * x + b) a =
      a * 256 ^ l.length + Nat.ofDigits 256 l.reverse := by
  induction l with
  | nil => intro a; simp
  | cons x xs ih =>
      intro a
      rw [List.foldl_cons, ih (256 * a + x), List.reverse_cons,
        Nat.ofDigits_append, Nat.ofDigits_singleton, List.length_cons,
        List.length_reverse]
      ring

/-- The `int.from_bytes(l, 'big')` equals the little-endian digit value of
the reversed list. -/
theorem beBytesToNat_eq (l : List Nat) :
    beBytesToNat l = Nat.ofDigits 256 l.reverse := by
  unfold beBytesToNat
  rw [beBytes_foldl]
  simp

/-- Leading zero bytes do not change the value. -/
theorem foldl_zeros (z : Nat) :
    (List.replicate z 0).foldl (fun x b => 256 * x + b) 0 = 0 := by
  induction z with
  | zero => rfl
  | succ n ih => rw [List.replicate_succ, List.foldl_cons]; simpa using ih

/-- The `takeWhile` / `dropWhile` through a replicated satisfying prefix
followed by a list whose head fails the predicate. -/
theorem takeWhile_replicate_append {α : Type} (p : α → Bool) (a : α)
    (ha : p a = true) (l : List α)
    (hl : ∀ x, l.head? = some x → p x = false) :
    ∀ n, (List.replicate n a ++ l).takeWhile p = List.replicate n a ∧
      (List.replicate n a ++ l).dropWhile p = l := by
  intro n
  induction n with
  | zero =>
      simp only [List.replicate, List.nil_append]
      cases l with
      | nil => exact ⟨rfl, rfl⟩
      | cons x xs =>
          have hx := hl x rfl
          exact ⟨List.takeWhile_cons_of_neg (by simp [hx]),
            List.dropWhile_cons_of_neg (by simp [hx])⟩
  | succ n ih =>
      simp only [List.replicate_succ, List.cons_append]
      exact ⟨by rw [List.takeWhile_cons_of_pos ha, ih.1],
        by rw [List.dropWhile_cons_of_pos ha, ih.2]⟩

/-- Digit lookup inverts the alphabet on all 58 digits. -/
theorem b58digit_b58char : ∀ d : Fin 58, b58digit (b58char d.val) = d.val := by
  decide

/-- Only digit 0 renders as `'1'`. -/
theorem b58char_ne_one : ∀ d : Fin 58, d.val ≠ 0 → b58char d.val ≠ '1' := by
  decide

/-- Base58check round trip at the byte level: decoding the rendering of
any byte string (bytes below 256) gives the byte string back. -/
theorem b58decode_render (abc : List Nat) (h : ∀ b ∈ abc, b < 256) :
    b58decodeBytes (b58Render abc) = abc := by
  have habc : abc.takeWhile (fun b => b == 0) ++
      abc.dropWhile (fun b => b == 0) = abc :=
    List.takeWhile_append_dropWhile _ _
  have ht : abc.takeWhile (fun b => b == 0) =
      List.replicate (abc.takeWhile (fun b => b == 0)).length 0 :=
    List.eq_replicate_of_mem (fun b hb => by
      have := List.mem_takeWhile_imp hb
      simpa using this)
  have hnum : beBytesToNat abc =
      beBytesToNat (abc.dropWhile (fun b => b == 0)) := by
    conv_lhs => rw [← habc, ht]
    unfold beBytesToNat
    rw [List.foldl_append, foldl_zeros]
  cases hd : abc.dropWhile (fun b => b == 0) with
  | nil =>
      have hzero : beBytesToNat abc = 0 := by rw [hnum, hd]; rfl
      show b58decodeBytes (List.replicate
        (abc.takeWhile (fun b => b == 0)).length '1' ++
        ((Nat.digits 58 (beBytesToNat abc)).reverse.map b58char)) = abc
      rw [hzero, Nat.digits_zero, List.reverse_nil, List.map_nil,
        List.append_nil]
      show List.replicate ((List.replicate
          (abc.takeWhile (fun b => b == 0)).length '1').takeWhile
          (fun c => c == '1')).length 0 ++
        (Nat.digits 256 (Nat.ofDigits 58 (((List.replicate
          (abc.takeWhile (fun b => b == 0)).length '1').dropWhile
          (fun c => c == '1')).map b58digit).reverse)).reverse = abc
      have htw := takeWhile_replicate_append (fun c => c == '1') '1' rfl
        ([] : List Char) (fun x hx => by exact absurd hx (by simp))
        (abc.takeWhile (fun b => b == 0)).length
      rw [show List.replicate (abc.takeWhile (fun b => b == 0)).length '1' =
        List.replicate (abc.takeWhile (fun b => b == 0)).length '1' ++ [] from
        (List.append_nil _).symm, htw.1, htw.2]
      rw [List.map_nil, List.reverse_nil, Nat.ofDigits_nil, Nat.digits_zero,
        List.reverse_nil, List.append_nil, List.length_replicate, ← ht]
      have := habc
      rw [hd, List.append_nil] at this
      exact this
  | cons b d' =>
      have hb0 : (b == 0) = false := by
        have := List.head?_dropWhile_not (fun b => b == 0) abc
        rw [hd] at this
        simpa using this
      have hbne : b ≠ 0 := by simpa using hb0
      have hsub : ∀ x ∈ b :: d', x ∈ abc := by
        intro x hx
        rw [← habc, hd]
        exact List.mem_append_right _ hx
      have hd256 : ∀ x ∈ (b :: d').reverse, x < 256 := by
        intro x hx
        exact h x (hsub x (List.mem_reverse.mp hx))
      have hrevne : (b :: d').reverse ≠ [] := by simp
      have hlast : ∀ hne : (b :: d').reverse ≠ [],
          (b :: d').reverse.getLast hne ≠ 0 := by
        intro hne
        have h1 : (b :: d').reverse.getLast? =
            some ((b :: d').reverse.getLast hne) :=
          List.getLast?_eq_getLast _ hne
        rw [List.getLast?_reverse] at h1
        have : b = (b :: d').reverse.getLast hne := Option.some.inj h1
        rw [← this]
        exact hbne
      have hdig256 : Nat.digits 256 (beBytesToNat abc) = (b :: d').reverse := by
        rw [hnum, hd, beBytesToNat_eq]
        exact Nat.digits_ofDigits 256 (by norm_num) _ hd256 hlast
      have hnum0 : beBytesToNat abc ≠ 0 := by
        intro h0
        rw [h0, Nat.digits_zero] at hdig256
        exact hrevne hdig256.symm
      have hds_ne : Nat.digits 58 (beBytesToNat abc) ≠ [] :=
        Nat.digits_ne_nil_iff_ne_zero.mpr hnum0
      have hlastdig_mem : (Nat.digits 58 (beBytesToNat abc)).getLast hds_ne ∈
          Nat.digits 58 (beBytesToNat abc) := List.getLast_mem hds_ne
      have hlastdig_lt : (Nat.digits 58 (beBytesToNat abc)).getLast hds_ne < 58 :=
        Nat.digits_lt_base (by norm_num) hlastdig_mem
      have hlastdig_ne : (Nat.digits 58 (beBytesToNat abc)).getLast hds_ne ≠ 0 :=
        Nat.getLast_digit_ne_zero 58 hnum0
      have hds_head : ∀ x,
          (((Nat.digits 58 (beBytesToNat abc)).reverse.map b58char).head? =
            some x) → (x == '1') = false := by
        intro x hx
        rw [List.head?_map, List.head?_reverse,
          List.getLast?_eq_getLast _ hds_ne, Option.map_some'] at hx
        have hxe : x = b58char ((Nat.digits 58 (beBytesToNat abc)).getLast
            hds_ne) := by simpa using hx.symm
        rw [hxe, beq_eq_false_iff_ne]
        exact b58char_ne_one ⟨_, hlastdig_lt⟩ hlastdig_ne
      show b58decodeBytes (List.replicate
        (abc.takeWhile (fun b => b == 0)).length '1' ++
        ((Nat.digits 58 (beBytesToNat abc)).reverse.map b58char)) = abc
      have htw := takeWhile_replicate_append (fun c => c == '1') '1' rfl
        ((Nat.digits 58 (beBytesToNat abc)).reverse.map b58char) hds_head
        (abc.takeWhile (fun b => b == 0)).length
      show List.replicate ((List.replicate
          (abc.takeWhile (fun b => b == 0)).length '1' ++
          ((Nat.digits 58 (beBytesToNat abc)).reverse.map b58char)).takeWhile
          (fun c => c == '1')).length 0 ++
        (Nat.digits 256 (Nat.ofDigits 58 (((List.replicate
          (abc.takeWhile (fun b => b == 0)).length '1' ++
          ((Nat.digits 58 (beBytesToNat abc)).reverse.map b58char)).dropWhile
          (fun c => c == '1')).map b58digit).reverse)).reverse = abc
      rw [htw.1, htw.2, List.length_replicate]
      have hmaps : (((Nat.digits 58 (beBytesToNat abc)).reverse.map
          b58char).map b58digit) = (Nat.digits 58 (beBytesToNat abc)).reverse := by
        rw [List.map_map]
        have : ∀ x ∈ (Nat.digits 58 (beBytesToNat abc)).reverse,
            (b58digit ∘ b58char) x = id x := by
          intro x hx
          have hxlt : x < 58 := Nat.digits_lt_base (by norm_num)
            (List.mem_reverse.mp hx)
          exact b58digit_b58char ⟨x, hxlt⟩
        rw [List.map_congr_left this, List.map_id]
      rw [hmaps, List.reverse_reverse, Nat.ofDigits_digits, hdig256,
        List.reverse_reverse, ← ht, ← hd]
      exact habc

/-- Full base58check round trip: decode of encode recovers the address
bytes followed by the 4 checksum bytes. -/
theorem b58decode_encode_check (bs : List Nat) (h : ∀ b ∈ bs, b < 256) :
    b58decodeBytes (b58encode_check bs) = bs ++ checksum4 bs := by
  unfold b58encode_check
  refine b58decode_render _ (fun b hb => ?_)
  rcases List.mem_append.mp hb with hb | hb
  · exact h b hb
  · exact checksum4_lt bs b hb

/-- Re-deriving the raw bytes from the encoded address drops exactly the
network prefix byte. -/
theorem rederiveRaw_encode (bs : List Nat) (h : ∀ b ∈ bs, b < 256) :
    rederiveRaw (b58encode_check bs) = bs.drop 1 := by
  unfold rederiveRaw
  show ((b58decodeBytes (b58encode_check bs)).take
      ((b58decodeBytes (b58encode_check bs)).length - 4)).drop 1 = bs.drop 1
  rw [b58decode_encode_check bs h, List.length_append, checksum4_length]
  have h4 : bs.length + 4 - 4 = bs.length := by omega
  rw [h4, List.take_left]

/-! ## Claim C7 -/

/-- Rendering a `0x41`-prefixed byte string begins with the characters
`41`. -/
theorem bytesToHex_65 (p : List Nat) :
    bytesToHex (65 :: p) = '4' :: '1' :: bytesToHex p := rfl

/-- The `_hex_to_address` on the rendering of an already-prefixed byte string
does not prepend another prefix and encodes the bytes as given. -/
theorem hex_to_address_render_prefixed (p : List Nat)
    (h : ∀ b ∈ p, b < 256) :
    hex_to_address (bytesToHex (65 :: p)) = b58encode_check (65 :: p) := by
  have h0x := bytesToHex_not_0x (65 :: p)
  have h41 : (['4', '1'].isPrefixOf (bytesToHex (65 :: p)) : Bool) = true :=
    (bytesToHex_starts41 65 p (by norm_num)).mpr rfl
  have hunhex : unhex (bytesToHex (65 :: p)) = some (65 :: p) :=
    unhex_bytesToHex _ (by
      intro b hb
      rcases List.mem_cons.mp hb with hb | hb
      · omega
      · exact h b hb)
  simp only [hex_to_address, h0x, h41, Bool.false_eq_true, if_false,
    not_true, hunhex]

/-- The `_hex_to_address` on the rendering of an unprefixed byte string whose
first byte is not `0x41` prepends the prefix and encodes `0x41 ∷ p`. -/
theorem hex_to_address_render_unprefixed (p : List Nat)
    (h : ∀ b ∈ p, b < 256) (hh : p.head? ≠ some 65) :
    hex_to_address (bytesToHex p) = b58encode_check (65 :: p) := by
  have h0x := bytesToHex_not_0x p
  have h41 : (['4', '1'].isPrefixOf (bytesToHex p) : Bool) = false := by
    cases p with
    | nil => rfl
    | cons b p' =>
        by_cases hb : b = 65
        · exact absurd (by subst hb; rfl : (b :: p').head? = some 65) hh
        · cases hpf : (['4', '1'].isPrefixOf (bytesToHex (b :: p')) : Bool) with
          | false => rfl
          | true =>
              exact absurd ((bytesToHex_starts41 b p'
                (h b (List.mem_cons_self b p'))).mp hpf) hb
  have hunhex : unhex (bytesToHex (65 :: p)) = some (65 :: p) :=
    unhex_bytesToHex _ (by
      intro b hb
      rcases List.mem_cons.mp hb with hb | hb
      · omega
      · exact h b hb)
  simp only [hex_to_address, h0x, h41, Bool.false_eq_true, if_false,
    not_false_iff, if_true, ← bytesToHex_65, hunhex]

/-- Claim C7 counterexample: the codec decides "already prefixed" by
`startswith('41')`, so the valid raw 20-byte payload
`41 00 ... 00` is mistaken for a prefixed 19-byte address; re-deriving
the raw payload from the checksummed address yields only 19 bytes — the
round trip is not the identity on such payloads. -/
theorem c7_counterexample :
    rederiveRaw (hex_to_address (bytesToHex payloadC7)) =
      List.replicate 19 0 ∧
    List.replicate 19 0 ≠ payloadC7 ∧
    payloadC7.length = 20 ∧ (∀ b ∈ payloadC7, b < 256) := by
  refine ⟨?_, by decide, by decide, by decide⟩
  have henc : hex_to_address (bytesToHex payloadC7) =
      b58encode_check payloadC7 :=
    hex_to_address_render_prefixed (List.replicate 19 0) (by decide)
  rw [henc, rederiveRaw_encode _ (by decide)]
  rfl

/-- Claim C7 (amended): the hex-to-base58check conversion accepts raw
addresses with or without the `41` network prefix byte and with or
without a `0x` transport prefix, and decoding then re-deriving the raw
form yields the original payload — provided an unprefixed payload does
not itself begin with the byte `0x41` (such a payload is mistaken for an
already-prefixed address and loses its first byte, see the
counterexample). -/
theorem c7_roundtrip :
    (∀ p : List Nat, (∀ b ∈ p, b < 256) →
      rederiveRaw (hex_to_address (bytesToHex (65 :: p))) = p) ∧
    (∀ p : List Nat, (∀ b ∈ p, b < 256) → p.head? ≠ some 65 →
      rederiveRaw (hex_to_address (bytesToHex p)) = p) ∧
    (∀ p : List Nat, hex_to_address ('0' :: 'x' :: bytesToHex p) =
      hex_to_address (bytesToHex p)) := by
  refine ⟨fun p h => ?_, fun p h hh => ?_, fun p => ?_⟩
  · rw [hex_to_address_render_prefixed p h,
      rederiveRaw_encode _ (by
        intro b hb
        rcases List.mem_cons.mp hb with hb | hb
        · omega
        · exact h b hb)]
    rfl
  · rw [hex_to_address_render_unprefixed p h hh,
      rederiveRaw_encode _ (by
        intro b hb
        rcases List.mem_cons.mp hb with hb | hb
        · omega
        · exact h b hb)]
    rfl
  · have h0x := bytesToHex_not_0x p
    simp only [hex_to_address, h0x, Bool.false_eq_true, if_false]
    have hpf : (['0', 'x'].isPrefixOf ('0' :: 'x' :: bytesToHex p) : Bool) =
        true := by simp [List.isPrefixOf]
    rw [hpf]
    simp

/-- Witness for C7's amended theorem at the concrete payload
`[0xec, 0x01]`, prefixed, unprefixed and with a `0x` transport prefix. -/
theorem c7_witness :
    rederiveRaw (hex_to_address (bytesToHex (65 :: [236, 1]))) = [236, 1] ∧
    rederiveRaw (hex_to_address (bytesToHex [236, 1])) = [236, 1] ∧
    hex_to_address ('0' :: 'x' :: bytesToHex [236, 1]) =
      hex_to_address (bytesToHex [236, 1]) :=
  ⟨c7_roundtrip.1 [236, 1] (by decide),
   c7_roundtrip.2.1 [236, 1] (by decide) (by decide),
   c7_roundtrip.2.2 [236, 1]⟩

/-! ## Claim C6 -/

set_option maxRecDepth 8192 in
/-- Claim C6 counterexample: the decoder never validates the method
selector — a call to the token contract whose selector is `00000000`
still triggers an order lookup; and a payload whose amount field is not
even hex is not skipped: it parses as amount 0 and still triggers an
order lookup, contradicting "malformed payloads are skipped with no
order lookup". -/
theorem c6_counterexample :
    (process_usdt_contract cfgC6 cSelC6).isSome = true ∧
    cSelC6.data.take 8 ≠ "a9059cbb".toList ∧
    (process_usdt_contract cfgC6 cBadC6).isSome = true ∧
    hexToNat? ((cBadC6.data.drop 72).take 64) = none := by
  have hlen1 : (dataSelC6.length < 136) = False := by decide
  have hlen2 : (dataBadC6.length < 136) = False := by decide
  have hdest1 : (dataSelC6.drop 32).take 40 = destHexC6 := by decide
  have hdest2 : (dataBadC6.drop 32).take 40 = destHexC6 := by decide
  refine ⟨?_, by decide, ?_, by decide⟩
  · simp only [process_usdt_contract, cSelC6, cfgC6, hlen1, hdest1,
      ne_eq, not_true, not_false_iff, if_false, if_true, ite_false,
      ite_true, not_not]
    simp
  · simp only [process_usdt_contract, cBadC6, cfgC6, hlen2, hdest2,
      ne_eq, not_true, not_false_iff, if_false, if_true, ite_false,
      ite_true, not_not]
    simp

/-- Claim C6 (amended): the token decoder treats a `raw_data.contract`
entry as a candidate transfer exactly when it is a smart-contract call
whose converted contract address equals the configured token contract,
whose payload has at least 136 hex characters, and whose fixed-offset
destination field converts to the configured wallet; the amount is the
fixed-offset field parsed with the token's 6 decimals and rounded to 2
decimals.  A different contract or a short payload triggers no order
lookup.  The method selector is *not* validated, and a payload whose
amount field is malformed still triggers a lookup (with amount 0). -/
theorem c6_usdt_decoder (cfg : TronConfig) (c : TronContract) :
    (hex_to_address c.contract_address ≠ cfg.usdt_contract →
      process_usdt_contract cfg c = none) ∧
    (c.data.length < 136 → process_usdt_contract cfg c = none) ∧
    (∀ a, process_usdt_contract cfg c = some a →
      c.ctype = "TriggerSmartContract" ∧
      hex_to_address c.contract_address = cfg.usdt_contract ∧
      136 ≤ c.data.length ∧
      hex_to_address ((c.data.drop 32).take 40) = cfg.wallet_address ∧
      a = py_round2 (parse_usdt_value ((c.data.drop 72).take 64))) ∧
    (c.ctype = "TriggerSmartContract" →
      hex_to_address c.contract_address = cfg.usdt_contract →
      136 ≤ c.data.length →
      hex_to_address ((c.data.drop 32).take 40) = cfg.wallet_address →
      process_usdt_contract cfg c =
        some (py_round2 (parse_usdt_value ((c.data.drop 72).take 64)))) := by
  refine ⟨fun hne => ?_, fun hlen => ?_, fun a ha => ?_, fun h1 h2 h3 h4 => ?_⟩
  · unfold process_usdt_contract
    by_cases h1 : c.ctype ≠ "TriggerSmartContract"
    · rw [if_pos h1]
    · rw [if_neg h1, if_pos hne]
  · unfold process_usdt_contract
    by_cases h1 : c.ctype ≠ "TriggerSmartContract"
    · rw [if_pos h1]
    · rw [if_neg h1]
      by_cases h2 : hex_to_address c.contract_address ≠ cfg.usdt_contract
      · rw [if_pos h2]
      · rw [if_neg h2, if_pos hlen]
  · unfold process_usdt_contract at ha
    by_cases h1 : c.ctype ≠ "TriggerSmartContract"
    · rw [if_pos h1] at ha; exact absurd ha (by simp)
    · rw [if_neg h1] at ha
      by_cases h2 : hex_to_address c.contract_address ≠ cfg.usdt_contract
      · rw [if_pos h2] at ha; exact absurd ha (by simp)
      · rw [if_neg h2] at ha
        by_cases h3 : c.data.length < 136
        · rw [if_pos h3] at ha; exact absurd ha (by simp)
        · rw [if_neg h3] at ha
          by_cases h4 : hex_to_address ((c.data.drop 32).take 40) ≠
              cfg.wallet_address
          · rw [if_pos h4] at ha; exact absurd ha (by simp)
          · rw [if_neg h4] at ha
            refine ⟨not_not.mp h1, not_not.mp h2, by omega,
              not_not.mp h4, ?_⟩
            have := Option.some.inj ha
            exact this.symm
  · unfold process_usdt_contract
    rw [if_neg (not_not.mpr h1), if_neg (not_not.mpr h2),
      if_neg (by omega : ¬c.data.length < 136),
      if_neg (not_not.mpr h4)]

set_option maxRecDepth 8192 in
/-- Witness for C6's amended theorem: the malformed-selector payload of
the counterexample satisfies all four decoder gates, so the lookup fires
with its parsed amount; and a short payload is skipped. -/
theorem c6_witness :
    process_usdt_contract cfgC6 cSelC6 =
      some (py_round2 (parse_usdt_value ((cSelC6.data.drop 72).take 64))) ∧
    process_usdt_contract cfgC6
      { ctype := "TriggerSmartContract", contract_address := contractHexC6,
        owner_address := [], data := ['a', 'b'] } = none :=
  ⟨(c6_usdt_decoder cfgC6 cSelC6).2.2.2 rfl rfl (by decide) rfl,
   (c6_usdt_decoder cfgC6
      { ctype := "TriggerSmartContract", contract_address := contractHexC6,
        owner_address := [], data := ['a', 'b'] }).2.1 (by decide)⟩

end Tkk1bot
